import Mathlib

/-!
# Beam keeper (`x/beam/keeper/beam.go`)

A shallow embedding of the beam keeper: the key-value store the keeper writes
to, the namespace-scoped view it opens on every call, the codec it uses for the
stored values, the nine keeper methods `GetBeam`, `ListBeams`, `HasBeam`,
`UpdateBeam`, `OpenBeam`, `IncreaseBeam`, `CloseBeam`, `CancelBeam`,
`ClaimBeam`, and the two query functions `fetchBeams` and `getBeam` of
`x/chain/keeper/query_beam.go`.

Conventions of the embedding.

* A Go `string` and a Go `[]byte` are both a list of bytes; `+` on strings is
  list append and the conversion `[]byte(s)` is the identity.
* The context `ctx` is the key-value store `ctx.KVStore(k.storeKey)` of the
  module; a method that writes returns the store after the call.
* A method that returns a Go `error` returns `Option BeamError`, `none` being
  `nil`.
* An amount is a value of a Go fixed-width integer type, held as the integer
  it denotes; the `+=` of Go wraps around (`GoInt.wrap`).
* A call that does not return normally (a panic of a `Must...` codec function,
  or a recursion that never ends) has result `none`.
-/

namespace BeamKeeper

/-! ## Bytes and strings -/

/-- One byte. -/
abbrev Byte := Fin 256

/-- A Go byte slice. -/
abbrev Bytes := List Byte

/-- A Go string, an immutable sequence of bytes. -/
abbrev GoString := List Byte

/-- The bytes of an ASCII literal, to write concrete inputs legibly. -/
def str (s : String) : GoString := s.toList.map (fun c => Fin.ofNat c.toNat)

/-- Raw byte comparison of two keys (`bytes.Compare a b < 0`). -/
def keyLt : Bytes → Bytes → Bool
  | [], [] => false
  | [], _ :: _ => true
  | _ :: _, [] => false
  | a :: as, b :: bs => if a < b then true else if b < a then false else keyLt as bs

/-! ## The key-value store -/

/-- The sorted key-value store behind `ctx.KVStore(k.storeKey)`: its entries,
in the order of the list. -/
abbrev KVStore := List (Bytes × Bytes)

/-- The value of the first entry with key `k`, when there is one. -/
def KVStore.lookup : KVStore → Bytes → Option Bytes
  | [], _ => none
  | (k', v) :: rest, k => if k' = k then some v else KVStore.lookup rest k

/-- The store's `Get`: the value under `k`, and `nil` (no bytes) when the key
is absent. -/
def KVStore.Get (s : KVStore) (k : Bytes) : Bytes := (s.lookup k).getD []

/-- The store's `Has`. -/
def KVStore.Has (s : KVStore) (k : Bytes) : Bool := (s.lookup k).isSome

/-- The store's `Set`: overwrite the entry of `k`, or insert one at its place
in key order. -/
def KVStore.Set : KVStore → Bytes → Bytes → KVStore
  | [], k, v => [(k, v)]
  | (k', v') :: rest, k, v =>
    if k' = k then (k, v) :: rest
    else if keyLt k k' then (k, v) :: (k', v') :: rest
    else (k', v') :: KVStore.Set rest k v

/-- The entries of the store whose key starts with `p`, in store order. -/
def KVStore.iterate (s : KVStore) (p : Bytes) : List (Bytes × Bytes) :=
  s.filter (fun e => p.isPrefixOf e.1)

/-! ### The namespace-scoped view `prefix.NewStore(parent, p)` -/

/-- The view of `parent` under the namespace `p`, as `prefix.NewStore` builds
it: every key given to the view is looked up in `parent` behind `p`. -/
structure PrefixStore where
  /-- The store the view reads and writes. -/
  parent : KVStore
  /-- The namespace put in front of every key. -/
  pfx : Bytes
deriving DecidableEq, Repr

/-- Build the view: `prefix.NewStore`. -/
def NewStore (parent : KVStore) (p : Bytes) : PrefixStore := ⟨parent, p⟩

/-- The key of `parent` that the view addresses for `key`. -/
def PrefixStore.key (st : PrefixStore) (key : Bytes) : Bytes := st.pfx ++ key

/-- The view's `Get`. -/
def PrefixStore.Get (st : PrefixStore) (key : Bytes) : Bytes :=
  st.parent.Get (st.key key)

/-- The view's `Has`. -/
def PrefixStore.Has (st : PrefixStore) (key : Bytes) : Bool :=
  st.parent.Has (st.key key)

/-- The view's `Set`; the result is the parent store after the write. -/
def PrefixStore.Set (st : PrefixStore) (key value : Bytes) : KVStore :=
  st.parent.Set (st.key key) value

/-- The iterator `sdk.KVStorePrefixIterator(view, start)`: the entries of the
view whose key in the view starts with `start`, in key order, each with its
key in the view (the namespace stripped). -/
def KVStorePrefixIterator (st : PrefixStore) (start : Bytes) : List (Bytes × Bytes) :=
  (st.parent.iterate (st.pfx ++ start)).map (fun e => (e.1.drop st.pfx.length, e.2))

/-! ## The `types` package -/

/-- Modelled from the spec: the status constants `types.BeamStatusPending`,
`types.BeamStatusFinalized`, `types.BeamStatusCanceled` and
`types.BeamStatusClaimed` are declared in the `types` package; the data model
gives a status as one of `pending`, `finalized`, `canceled`, `claimed`. -/
inductive BeamStatus where
  | BeamStatusPending
  | BeamStatusFinalized
  | BeamStatusCanceled
  | BeamStatusClaimed
deriving DecidableEq, Repr

export BeamStatus (BeamStatusPending BeamStatusFinalized BeamStatusCanceled BeamStatusClaimed)

/-- The fixed-width integer types of Go. The keeper does `beam.Amount +=
msg.Amount` with the builtin `+=`, so the amount has one of them (`int` and
`uint` are one of the 32 and 64 bit ones); which one is declared in the `types`
package. -/
inductive GoInt where
  | int8
  | int16
  | int32
  | int64
  | uint8
  | uint16
  | uint32
  | uint64
deriving DecidableEq, Repr

/-- The width of the type, in bits. -/
def GoInt.bits : GoInt → Nat
  | GoInt.int8 => 8
  | GoInt.int16 => 16
  | GoInt.int32 => 32
  | GoInt.int64 => 64
  | GoInt.uint8 => 8
  | GoInt.uint16 => 16
  | GoInt.uint32 => 32
  | GoInt.uint64 => 64

/-- The type is a signed one. -/
def GoInt.signed : GoInt → Bool
  | GoInt.int8 => true
  | GoInt.int16 => true
  | GoInt.int32 => true
  | GoInt.int64 => true
  | _ => false

/-- The number of values of the type, `2 ^ bits`. -/
def GoInt.modulus (t : GoInt) : Int := ((2 ^ t.bits : Nat) : Int)

/-- The least value of the type. -/
def GoInt.minVal (t : GoInt) : Int :=
  if t.signed then -((2 ^ (t.bits - 1) : Nat) : Int) else 0

/-- The value of the type that Go arithmetic gives for the mathematical result
`x`: the result wraps around (two's complement; no overflow check). -/
def GoInt.wrap (t : GoInt) (x : Int) : Int := (x - t.minVal) % t.modulus + t.minVal

/-- Modelled from the spec: the struct `types.Beam` is declared in the `types`
package; the keeper uses the fields `Creator`, `Id`, `Secret`, `Amount` and
`Status`. The amount is a value of a Go integer type, held here as the
integer it denotes. -/
structure Beam where
  Creator : GoString
  Id : GoString
  Secret : GoString
  Amount : Int
  Status : BeamStatus
deriving DecidableEq, Repr

/-- Modelled from the spec: the message `types.MsgOpenBeam{creator, secret,
amount}`. -/
structure MsgOpenBeam where
  Creator : GoString
  Secret : GoString
  Amount : Int
deriving DecidableEq, Repr

/-- Modelled from the spec: the message `types.MsgIncreaseBeam{id, updater,
amount}`. -/
structure MsgIncreaseBeam where
  Id : GoString
  Updater : GoString
  Amount : Int
deriving DecidableEq, Repr

/-- Modelled from the spec: the message `types.MsgCloseBeam{id, updater}`. -/
structure MsgCloseBeam where
  Id : GoString
  Updater : GoString
deriving DecidableEq, Repr

/-- Modelled from the spec: the message `types.MsgCancelBeam{id, updater}`. -/
structure MsgCancelBeam where
  Id : GoString
  Updater : GoString
deriving DecidableEq, Repr

/-- Modelled from the spec: the message `types.MsgClaimBeam{id, secret}`. -/
structure MsgClaimBeam where
  Id : GoString
  Secret : GoString
deriving DecidableEq, Repr

/-- Modelled from the spec: the error values of the `types` package are not
under the keeper; these are the error kinds of the error handling design. The
keeper returns two of them, `ErrBeamNotFound` and `ErrBeamNotAuthorized`. -/
inductive BeamError where
  | NotFound
  | NotAuthorized
  | InvalidState
  | DecodeError
  | ExhaustedIdentifierSpace
  | TransferFailed
deriving DecidableEq, Repr

/-- Modelled from the spec: `types.ErrBeamNotFound`, the `NotFound` kind. -/
def ErrBeamNotFound : BeamError := BeamError.NotFound

/-- Modelled from the spec: `types.ErrBeamNotAuthorized`, the `NotAuthorized`
kind. -/
def ErrBeamNotAuthorized : BeamError := BeamError.NotAuthorized

/-- Modelled from the spec: the constant `types.BeamKey`, the single flat key
namespace of the beams, `"Beam/value/"`. -/
def BeamKey : GoString := str "Beam/value/"

/-- Modelled from the spec: `types.KeyPrefix`, the conversion of a key string
to the byte slice given to the store. -/
def KeyPrefix (p : GoString) : Bytes := p

/-! ## The keeper -/

/-- The binary codec `k.cdc` of the keeper, restricted to beams.
`MustUnmarshalBinaryBare` panics on bytes it cannot decode: that is `none`. -/
structure Codec where
  MustMarshalBinaryBare : Beam → Bytes
  MustUnmarshalBinaryBare : Bytes → Option Beam

/-- The codec decodes what it encodes. -/
def Codec.Faithful (cdc : Codec) : Prop :=
  ∀ b : Beam, cdc.MustUnmarshalBinaryBare (cdc.MustMarshalBinaryBare b) = some b

/-- The keeper. Its `storeKey` names the module's store, which is the `ctx`
argument of every method here. Beside the codec it carries what the methods
take from the `types` package: the integer type declared there for the
amounts, in which `+=` is computed. -/
structure Keeper where
  cdc : Codec
  amountType : GoInt

/-- `GetBeam`: the beam decoded from the bytes stored for `key`. No check is
made that the key is present: the bytes are then `nil`. -/
def GetBeam (k : Keeper) (ctx : KVStore) (key : GoString) : Option Beam :=
  let store := NewStore ctx (KeyPrefix BeamKey)
  k.cdc.MustUnmarshalBinaryBare (store.Get (KeyPrefix (BeamKey ++ key)))

/-- `ListBeams`: decode every entry of the iterator in turn and append it;
a value that does not decode panics. -/
def ListBeams (k : Keeper) (ctx : KVStore) : Option (List Beam) :=
  let store := NewStore ctx (KeyPrefix BeamKey)
  let iterator := KVStorePrefixIterator store (KeyPrefix BeamKey)
  iterator.foldlM (fun msgs e => (k.cdc.MustUnmarshalBinaryBare e.2).map (fun msg => msgs ++ [msg])) []

/-- `HasBeam`. -/
def HasBeam (_k : Keeper) (ctx : KVStore) (id : GoString) : Bool :=
  let store := NewStore ctx (KeyPrefix BeamKey)
  store.Has (KeyPrefix (BeamKey ++ id))

/-- `UpdateBeam`: encode the beam and set it under `key`, unconditionally. -/
def UpdateBeam (k : Keeper) (ctx : KVStore) (key : GoString) (beam : Beam) : KVStore :=
  let store := NewStore ctx (KeyPrefix BeamKey)
  let encodedBeam := k.cdc.MustMarshalBinaryBare beam
  store.Set (KeyPrefix (BeamKey ++ key)) encodedBeam

/-- `OpenBeam`. The list holds the successive results of
`GenerateSecureToken(10)`, one for each time the method is entered; the method
calls itself again as long as the token drawn is already the id of a beam.
With no token left the call has not returned: `none`. -/
def OpenBeam (k : Keeper) (ctx : KVStore) (msg : MsgOpenBeam) :
    List GoString → Option (Option BeamError × KVStore)
  | [] => none
  | id :: tokens =>
    if HasBeam k ctx id then OpenBeam k ctx msg tokens
    else
      let beam : Beam :=
        { Creator := msg.Creator, Id := id, Secret := msg.Secret, Amount := msg.Amount,
          Status := BeamStatusPending }
      let store := NewStore ctx (KeyPrefix BeamKey)
      let key := KeyPrefix (BeamKey ++ beam.Id)
      let value := k.cdc.MustMarshalBinaryBare beam
      some (none, store.Set key value)

/-- `IncreaseBeam`. -/
def IncreaseBeam (k : Keeper) (ctx : KVStore) (msg : MsgIncreaseBeam) :
    Option (Option BeamError × KVStore) :=
  if !HasBeam k ctx msg.Id then some (some ErrBeamNotFound, ctx)
  else
    match GetBeam k ctx msg.Id with
    | none => none
    | some beam =>
      if beam.Creator != msg.Updater then some (some ErrBeamNotAuthorized, ctx)
      else
        let beam := { beam with Amount := k.amountType.wrap (beam.Amount + msg.Amount) }
        some (none, UpdateBeam k ctx msg.Id beam)

/-- `CloseBeam`. -/
def CloseBeam (k : Keeper) (ctx : KVStore) (msg : MsgCloseBeam) :
    Option (Option BeamError × KVStore) :=
  if !HasBeam k ctx msg.Id then some (some ErrBeamNotFound, ctx)
  else
    match GetBeam k ctx msg.Id with
    | none => none
    | some beam =>
      if beam.Creator != msg.Updater then some (some ErrBeamNotAuthorized, ctx)
      else
        let beam := { beam with Status := BeamStatusFinalized }
        some (none, UpdateBeam k ctx msg.Id beam)

/-- `CancelBeam`. -/
def CancelBeam (k : Keeper) (ctx : KVStore) (msg : MsgCancelBeam) :
    Option (Option BeamError × KVStore) :=
  if !HasBeam k ctx msg.Id then some (some ErrBeamNotFound, ctx)
  else
    match GetBeam k ctx msg.Id with
    | none => none
    | some beam =>
      if beam.Creator != msg.Updater then some (some ErrBeamNotAuthorized, ctx)
      else
        let beam := { beam with Status := BeamStatusCanceled }
        some (none, UpdateBeam k ctx msg.Id beam)

/-- `ClaimBeam`. -/
def ClaimBeam (k : Keeper) (ctx : KVStore) (msg : MsgClaimBeam) :
    Option (Option BeamError × KVStore) :=
  if !HasBeam k ctx msg.Id then some (some ErrBeamNotFound, ctx)
  else
    match GetBeam k ctx msg.Id with
    | none => none
    | some beam =>
      if beam.Secret != msg.Secret then some (some ErrBeamNotAuthorized, ctx)
      else
        let beam := { beam with Status := BeamStatusClaimed }
        some (none, UpdateBeam k ctx msg.Id beam)

/-! ## Reading the state of a beam -/

/-- The beam stored under `id`: the decoded entry when `HasBeam` holds, and
nothing when the id has no entry (or its bytes do not decode). -/
def storedBeam (k : Keeper) (ctx : KVStore) (id : GoString) : Option Beam :=
  if HasBeam k ctx id then GetBeam k ctx id else none

/-- The key of the underlying store under which the keeper addresses the beam
`id`: the key it gives to the namespace view, behind the namespace of the
view. -/
def beamStoreKey (id : GoString) : Bytes :=
  (NewStore [] (KeyPrefix BeamKey)).key (KeyPrefix (BeamKey ++ id))

/-! ## Sequences of calls -/

/-- One call of a lifecycle method, with its arguments (for `OpenBeam`, also
the tokens its id generation draws). -/
inductive Call where
  | openBeam (msg : MsgOpenBeam) (tokens : List GoString)
  | increaseBeam (msg : MsgIncreaseBeam)
  | closeBeam (msg : MsgCloseBeam)
  | cancelBeam (msg : MsgCancelBeam)
  | claimBeam (msg : MsgClaimBeam)
deriving DecidableEq, Repr

/-- Run one call. -/
def Call.run (k : Keeper) (ctx : KVStore) : Call → Option (Option BeamError × KVStore)
  | Call.openBeam msg tokens => OpenBeam k ctx msg tokens
  | Call.increaseBeam msg => IncreaseBeam k ctx msg
  | Call.closeBeam msg => CloseBeam k ctx msg
  | Call.cancelBeam msg => CancelBeam k ctx msg
  | Call.claimBeam msg => ClaimBeam k ctx msg

/-- Run the calls one after the other, each on the store the one before left;
the result is the list of the errors returned and the final store. -/
def runCalls (k : Keeper) : KVStore → List Call → Option (List (Option BeamError) × KVStore)
  | ctx, [] => some ([], ctx)
  | ctx, c :: cs =>
    match c.run k ctx with
    | none => none
    | some (e, ctx1) =>
      match runCalls k ctx1 cs with
      | none => none
      | some (es, ctx2) => some (e :: es, ctx2)

/-- The id under which `OpenBeam` writes: the first token drawn that is not
the id of a beam. -/
def mintedId (k : Keeper) (ctx : KVStore) : List GoString → Option GoString
  | [] => none
  | id :: tokens => if HasBeam k ctx id then mintedId k ctx tokens else some id

/-- Run the calls one after the other and collect, in call order, the ids
under which the `OpenBeam` calls among them write; the result is that list and
the final store. -/
def mintedIds (k : Keeper) : KVStore → List Call → Option (List GoString × KVStore)
  | ctx, [] => some ([], ctx)
  | ctx, c :: cs =>
    match c.run k ctx with
    | none => none
    | some (_, ctx1) =>
      match mintedIds k ctx1 cs with
      | none => none
      | some (ids, ctx2) =>
        match c with
        | Call.openBeam _ tokens => some ((mintedId k ctx tokens).toList ++ ids, ctx2)
        | _ => some (ids, ctx2)

/-! ## An example codec

A length-framed byte encoding of a beam, used to evaluate the keeper on
concrete stores. Like the protobuf codec it decodes the empty input to the
zero-valued beam. -/

/-- A natural number in unary: `n` bytes `1`, then a byte `0`. -/
def encNat (n : Nat) : Bytes := List.replicate n 1 ++ [0]

/-- Read a unary number off the front of the input. -/
def decNat : Bytes → Option (Nat × Bytes)
  | [] => none
  | b :: rest => if b = 0 then some (0, rest) else (decNat rest).map (fun r => (r.1 + 1, r.2))

/-- A string: its length, then its bytes. -/
def encStr (s : GoString) : Bytes := encNat s.length ++ s

/-- Read a string off the front of the input. -/
def decStr (bs : Bytes) : Option (GoString × Bytes) :=
  match decNat bs with
  | none => none
  | some (n, rest) => if n ≤ rest.length then some (rest.take n, rest.drop n) else none

/-- One byte for the status. -/
def encStatus : BeamStatus → Byte
  | BeamStatusPending => 0
  | BeamStatusFinalized => 1
  | BeamStatusCanceled => 2
  | BeamStatusClaimed => 3

/-- Read the status byte. -/
def decStatus (b : Byte) : Option BeamStatus :=
  if b = 0 then some BeamStatusPending
  else if b = 1 then some BeamStatusFinalized
  else if b = 2 then some BeamStatusCanceled
  else if b = 3 then some BeamStatusClaimed
  else none

/-- The base-256 digits of `n`, least first; `fuel` bounds their number. -/
def digits256 : Nat → Nat → Bytes
  | 0, _ => []
  | fuel + 1, n => if n = 0 then [] else Fin.ofNat (n % 256) :: digits256 fuel (n / 256)

/-- The number with these base-256 digits. -/
def ofDigits256 : Bytes → Nat
  | [] => 0
  | d :: ds => d.val + 256 * ofDigits256 ds

/-- An integer: a sign byte, then the base-256 digits of its absolute value. -/
def intDigits (x : Int) : Bytes :=
  (if x < 0 then 1 else 0) :: digits256 x.natAbs x.natAbs

/-- Read an integer from its sign byte and digits. -/
def ofIntDigits : Bytes → Option Int
  | [] => none
  | sgn :: ds => some (if sgn = 0 then (ofDigits256 ds : Int) else -(ofDigits256 ds : Int))

/-- The zero-valued beam. -/
def zeroBeam : Beam := ⟨[], [], [], 0, BeamStatusPending⟩

/-- Encode a beam: creator, id, secret, amount, status. -/
def exampleMarshal (b : Beam) : Bytes :=
  encStr b.Creator ++ (encStr b.Id ++ (encStr b.Secret
    ++ (encStr (intDigits b.Amount) ++ [encStatus b.Status])))

/-- Decode a beam; `none` on malformed input. -/
def exampleUnmarshal (bs : Bytes) : Option Beam :=
  if bs = [] then some zeroBeam
  else
    match decStr bs with
    | none => none
    | some (creator, r1) =>
      match decStr r1 with
      | none => none
      | some (id, r2) =>
        match decStr r2 with
        | none => none
        | some (secret, r3) =>
          match decStr r3 with
          | some (digits, [st]) =>
            match ofIntDigits digits, decStatus st with
            | some amount, some status => some ⟨creator, id, secret, amount, status⟩
            | _, _ => none
          | _ => none

/-- The example codec. -/
def exampleCodec : Codec := ⟨exampleMarshal, exampleUnmarshal⟩

/-- A keeper with the example codec, the amounts being `int64`. -/
def exampleKeeper : Keeper := ⟨exampleCodec, GoInt.int64⟩

/-- The beam of scenario C as opened. -/
def beamZ : Beam := ⟨str "carol", str "Z", str "s3", 10, BeamStatusPending⟩

/-- The store after `OpenBeam` on the empty store. -/
def storeZopened : KVStore := UpdateBeam exampleKeeper [] (str "Z") beamZ

/-- The store after the creator canceled the beam. -/
def storeZcanceled : KVStore :=
  UpdateBeam exampleKeeper storeZopened (str "Z") { beamZ with Status := BeamStatusCanceled }

/-- The store after the creator increased the canceled beam by `5`. -/
def storeZincreased : KVStore :=
  UpdateBeam exampleKeeper storeZcanceled (str "Z")
    { beamZ with Status := BeamStatusCanceled, Amount := 15 }

/-- The store after `bob` opened a beam under `Y` in the store of scenario C. -/
def storeZY : KVStore :=
  UpdateBeam exampleKeeper storeZopened (str "Y")
    ⟨str "bob", str "Y", str "s2", 10, BeamStatusPending⟩

/-- The store after `bob` then claimed that beam and `alice` opened one under
`X`. -/
def storeZYX : KVStore :=
  UpdateBeam exampleKeeper
    (UpdateBeam exampleKeeper storeZY (str "Y")
      ⟨str "bob", str "Y", str "s2", 10, BeamStatusClaimed⟩)
    (str "X") ⟨str "alice", str "X", str "s1", 20, BeamStatusPending⟩

/-- Five calls on the store of scenario C after the cancel: an increase and a
close of `Z` by its creator, an open that draws `Z` and then `Y`, a claim of
`Z` with its secret, and a cancel of `Y` by its creator. -/
def callsZ : List Call :=
  [Call.increaseBeam ⟨str "Z", str "carol", 5⟩,
   Call.closeBeam ⟨str "Z", str "carol"⟩,
   Call.openBeam ⟨str "bob", str "s2", 10⟩ [str "Z", str "Y"],
   Call.claimBeam ⟨str "Z", str "s3"⟩,
   Call.cancelBeam ⟨str "Y", str "bob"⟩]

/-- The store these five calls leave. -/
def storeZlast : KVStore :=
  UpdateBeam exampleKeeper
    (UpdateBeam exampleKeeper
      (UpdateBeam exampleKeeper
        (UpdateBeam exampleKeeper storeZincreased (str "Z")
          ⟨str "carol", str "Z", str "s3", 15, BeamStatusFinalized⟩)
        (str "Y") ⟨str "bob", str "Y", str "s2", 10, BeamStatusPending⟩)
      (str "Z") ⟨str "carol", str "Z", str "s3", 15, BeamStatusClaimed⟩)
    (str "Y") ⟨str "bob", str "Y", str "s2", 10, BeamStatusCanceled⟩

/-! ## The query functions (`x/chain/keeper/query_beam.go`) -/

/-- The JSON codec `legacyQuerierCdc` of the query functions, restricted to
what they render: one beam, or a list of beams. `codec.MarshalJSONIndent`
returns the bytes or an error: the error is `none`. -/
structure LegacyAmino where
  MarshalJSONIndent : Beam → Option Bytes
  MarshalJSONIndentList : List Beam → Option Bytes

/-- The errors a query function can return: an error of the beam module, or
the wrapped `sdkerrors.ErrJSONMarshal`. -/
inductive QueryError where
  | beam (e : BeamError)
  | ErrJSONMarshal
deriving DecidableEq, Repr

/-- `fetchBeams`: render the result of `ListBeams`. The result is the Go pair
of the bytes and the error. The keeper of `query_beam.go` is taken to be the
keeper above. -/
def fetchBeams (ctx : KVStore) (keeper : Keeper) (legacyQuerierCdc : LegacyAmino) :
    Option (Bytes × Option QueryError) :=
  match ListBeams keeper ctx with
  | none => none
  | some msgs =>
    match legacyQuerierCdc.MarshalJSONIndentList msgs with
    | none => some ([], some QueryError.ErrJSONMarshal)
    | some bz => some (bz, none)

/-- `getBeam`: render the result of `GetBeam` for `id`. No check is made that
the id is present. -/
def getBeam (ctx : KVStore) (id : GoString) (keeper : Keeper) (legacyQuerierCdc : LegacyAmino) :
    Option (Bytes × Option QueryError) :=
  match GetBeam keeper ctx id with
  | none => none
  | some msg =>
    match legacyQuerierCdc.MarshalJSONIndent msg with
    | none => some ([], some QueryError.ErrJSONMarshal)
    | some bz => some (bz, none)

/-- An example JSON codec: a beam is rendered by the example encoding, a list
by the encodings of its beams one after the other. -/
def exampleAmino : LegacyAmino :=
  ⟨fun b => some (exampleMarshal b), fun bs => some (bs.map exampleMarshal).flatten⟩

/-! ## Transfers -/

/-- The invocations of the external value-transfer capability that a call
makes, each with the amount passed. The keeper holds no such capability and
the methods have no statement at the three places where the transfer belongs
(`// Proceed money transfer from module account`, `// Refund creator`,
`// Transfer funds`, each followed by `//TODO: implement`): no call makes
any. -/
def Call.transfers (_k : Keeper) (_ctx : KVStore) : Call → List Int
  | Call.openBeam _ _ => []
  | Call.increaseBeam _ => []
  | Call.closeBeam _ => []
  | Call.cancelBeam _ => []
  | Call.claimBeam _ => []

/-! ## Invariants of a store -/

/-- The keys of the store are strictly ascending in byte order, the invariant
of the sorted key-value store. -/
def KVStore.Sorted (s : KVStore) : Prop := s.Pairwise (fun a b => keyLt a.1 b.1 = true)

/-- Every beam stored has, as its `Id` field, the id it is stored under. -/
def KeyIdConsistent (k : Keeper) (s : KVStore) : Prop :=
  ∀ (id : GoString) (b : Beam), storedBeam k s id = some b → b.Id = id

/-- An entry of the store is the entry of a beam: its key is the key of some
id. -/
def isBeamEntry (e : Bytes × Bytes) : Bool :=
  (KeyPrefix BeamKey ++ KeyPrefix BeamKey).isPrefixOf e.1

/-- Decode the values in turn; `none` as soon as one does not decode. -/
def decodeAll (k : Keeper) : List Bytes → Option (List Beam)
  | [] => some []
  | v :: vs =>
    match k.cdc.MustUnmarshalBinaryBare v, decodeAll k vs with
    | some b, some bs => some (b :: bs)
    | _, _ => none

/-- The list the repository's `list` is to return, in the words of the spec:
a full scan of the entries of the beams, each decoded, in key order. -/
def listSpec (k : Keeper) (s : KVStore) : Option (List Beam) :=
  decodeAll k ((s.filter isBeamEntry).map (fun e => e.2))

/-! ## Lemmas on Go integer arithmetic -/

theorem KVStore.lookup_Set_same (s : KVStore) (k v : Bytes) :
    (KVStore.Set s k v).lookup k = some v := by
  induction s with
  | nil => simp [KVStore.Set, KVStore.lookup]
  | cons e rest ih =>
    obtain ⟨k', v'⟩ := e
    by_cases h1 : k' = k
    · simp [KVStore.Set, KVStore.lookup, h1]
    · by_cases h2 : keyLt k k' = true
      · simp [KVStore.Set, KVStore.lookup, h1, h2]
      · simp [KVStore.Set, KVStore.lookup, h1, h2, ih]

theorem KVStore.lookup_Set_ne (s : KVStore) (k v k1 : Bytes) (h : k1 ≠ k) :
    (KVStore.Set s k v).lookup k1 = s.lookup k1 := by
  have h' : ¬ k = k1 := fun e => h e.symm
  induction s with
  | nil => simp [KVStore.Set, KVStore.lookup, h']
  | cons e rest ih =>
    obtain ⟨k', v'⟩ := e
    by_cases h1 : k' = k
    · subst h1
      simp [KVStore.Set, KVStore.lookup, h']
    · by_cases h2 : keyLt k k' = true
      · simp [KVStore.Set, KVStore.lookup, h1, h2, h']
      · simp [KVStore.Set, KVStore.lookup, h1, h2, ih]

theorem KVStore.length_Set_absent (s : KVStore) (k v : Bytes) (h : s.lookup k = none) :
    (KVStore.Set s k v).length = s.length + 1 := by
  induction s with
  | nil => simp [KVStore.Set]
  | cons e rest ih =>
    obtain ⟨k', v'⟩ := e
    by_cases h1 : k' = k
    · simp [KVStore.lookup, h1] at h
    · simp only [KVStore.lookup, h1, if_false] at h
      by_cases h2 : keyLt k k' = true
      · simp [KVStore.Set, h1, h2]
      · simp [KVStore.Set, h1, h2, ih h]

/-! ## Lemmas on the repository methods -/

theorem beamStoreKey_injective (id1 id2 : GoString) (h : beamStoreKey id1 = beamStoreKey id2) :
    id1 = id2 := by
  simp only [beamStoreKey, PrefixStore.key, NewStore, KeyPrefix] at h
  exact List.append_cancel_left (List.append_cancel_left h)

theorem HasBeam_eq (k : Keeper) (s : KVStore) (id : GoString) :
    HasBeam k s id = (s.lookup (beamStoreKey id)).isSome := rfl

theorem GetBeam_eq (k : Keeper) (s : KVStore) (id : GoString) :
    GetBeam k s id = k.cdc.MustUnmarshalBinaryBare ((s.lookup (beamStoreKey id)).getD []) := rfl

theorem UpdateBeam_eq (k : Keeper) (s : KVStore) (id : GoString) (b : Beam) :
    UpdateBeam k s id b = s.Set (beamStoreKey id) (k.cdc.MustMarshalBinaryBare b) := rfl

theorem HasBeam_UpdateBeam_same (k : Keeper) (s : KVStore) (id : GoString) (b : Beam) :
    HasBeam k (UpdateBeam k s id b) id = true := by
  rw [HasBeam_eq, UpdateBeam_eq, KVStore.lookup_Set_same]; rfl

theorem HasBeam_UpdateBeam_ne (k : Keeper) (s : KVStore) (id id1 : GoString) (b : Beam)
    (h : id1 ≠ id) : HasBeam k (UpdateBeam k s id b) id1 = HasBeam k s id1 := by
  rw [HasBeam_eq, HasBeam_eq, UpdateBeam_eq,
    KVStore.lookup_Set_ne _ _ _ _ (fun e => h (beamStoreKey_injective _ _ e))]

theorem GetBeam_UpdateBeam_same (k : Keeper) (hF : k.cdc.Faithful) (s : KVStore)
    (id : GoString) (b : Beam) : GetBeam k (UpdateBeam k s id b) id = some b := by
  rw [GetBeam_eq, UpdateBeam_eq, KVStore.lookup_Set_same]
  exact hF b

theorem GetBeam_UpdateBeam_ne (k : Keeper) (s : KVStore) (id id1 : GoString) (b : Beam)
    (h : id1 ≠ id) : GetBeam k (UpdateBeam k s id b) id1 = GetBeam k s id1 := by
  rw [GetBeam_eq, GetBeam_eq, UpdateBeam_eq,
    KVStore.lookup_Set_ne _ _ _ _ (fun e => h (beamStoreKey_injective _ _ e))]

theorem storedBeam_UpdateBeam_same (k : Keeper) (hF : k.cdc.Faithful) (s : KVStore)
    (id : GoString) (b : Beam) : storedBeam k (UpdateBeam k s id b) id = some b := by
  simp [storedBeam, HasBeam_UpdateBeam_same, GetBeam_UpdateBeam_same k hF]

theorem storedBeam_UpdateBeam_ne (k : Keeper) (s : KVStore) (id id1 : GoString) (b : Beam)
    (h : id1 ≠ id) : storedBeam k (UpdateBeam k s id b) id1 = storedBeam k s id1 := by
  simp [storedBeam, HasBeam_UpdateBeam_ne k s id id1 b h, GetBeam_UpdateBeam_ne k s id id1 b h]

theorem storedBeam_some (k : Keeper) (s : KVStore) (id : GoString) (b : Beam)
    (h : storedBeam k s id = some b) : HasBeam k s id = true ∧ GetBeam k s id = some b := by
  unfold storedBeam at h
  by_cases hh : HasBeam k s id = true
  · simpa [hh] using h
  · simp [hh] at h

theorem storedBeam_absent (k : Keeper) (s : KVStore) (id : GoString)
    (h : HasBeam k s id = false) : storedBeam k s id = none := by
  simp [storedBeam, h]

/-! ## Lemmas on the lifecycle methods -/

theorem IncreaseBeam_absent (k : Keeper) (s : KVStore) (msg : MsgIncreaseBeam)
    (h : HasBeam k s msg.Id = false) : IncreaseBeam k s msg = some (some ErrBeamNotFound, s) := by
  simp [IncreaseBeam, h]

theorem CloseBeam_absent (k : Keeper) (s : KVStore) (msg : MsgCloseBeam)
    (h : HasBeam k s msg.Id = false) : CloseBeam k s msg = some (some ErrBeamNotFound, s) := by
  simp [CloseBeam, h]

theorem CancelBeam_absent (k : Keeper) (s : KVStore) (msg : MsgCancelBeam)
    (h : HasBeam k s msg.Id = false) : CancelBeam k s msg = some (some ErrBeamNotFound, s) := by
  simp [CancelBeam, h]

theorem ClaimBeam_absent (k : Keeper) (s : KVStore) (msg : MsgClaimBeam)
    (h : HasBeam k s msg.Id = false) : ClaimBeam k s msg = some (some ErrBeamNotFound, s) := by
  simp [ClaimBeam, h]

theorem IncreaseBeam_stored (k : Keeper) (s : KVStore) (msg : MsgIncreaseBeam) (b : Beam)
    (h : storedBeam k s msg.Id = some b) :
    IncreaseBeam k s msg =
      if b.Creator = msg.Updater then
        some (none, UpdateBeam k s msg.Id
          { b with Amount := k.amountType.wrap (b.Amount + msg.Amount) })
      else some (some ErrBeamNotAuthorized, s) := by
  obtain ⟨hh, hg⟩ := storedBeam_some k s _ b h
  by_cases hc : b.Creator = msg.Updater <;> simp [IncreaseBeam, hh, hg, hc]

theorem CloseBeam_stored (k : Keeper) (s : KVStore) (msg : MsgCloseBeam) (b : Beam)
    (h : storedBeam k s msg.Id = some b) :
    CloseBeam k s msg =
      if b.Creator = msg.Updater then
        some (none, UpdateBeam k s msg.Id { b with Status := BeamStatusFinalized })
      else some (some ErrBeamNotAuthorized, s) := by
  obtain ⟨hh, hg⟩ := storedBeam_some k s _ b h
  by_cases hc : b.Creator = msg.Updater <;> simp [CloseBeam, hh, hg, hc]

theorem CancelBeam_stored (k : Keeper) (s : KVStore) (msg : MsgCancelBeam) (b : Beam)
    (h : storedBeam k s msg.Id = some b) :
    CancelBeam k s msg =
      if b.Creator = msg.Updater then
        some (none, UpdateBeam k s msg.Id { b with Status := BeamStatusCanceled })
      else some (some ErrBeamNotAuthorized, s) := by
  obtain ⟨hh, hg⟩ := storedBeam_some k s _ b h
  by_cases hc : b.Creator = msg.Updater <;> simp [CancelBeam, hh, hg, hc]

theorem ClaimBeam_stored (k : Keeper) (s : KVStore) (msg : MsgClaimBeam) (b : Beam)
    (h : storedBeam k s msg.Id = some b) :
    ClaimBeam k s msg =
      if b.Secret = msg.Secret then
        some (none, UpdateBeam k s msg.Id { b with Status := BeamStatusClaimed })
      else some (some ErrBeamNotAuthorized, s) := by
  obtain ⟨hh, hg⟩ := storedBeam_some k s _ b h
  by_cases hc : b.Secret = msg.Secret <;> simp [ClaimBeam, hh, hg, hc]

theorem OpenBeam_eq_mintedId (k : Keeper) (s : KVStore) (msg : MsgOpenBeam)
    (tokens : List GoString) :
    OpenBeam k s msg tokens =
      (mintedId k s tokens).map (fun id =>
        (none, UpdateBeam k s id ⟨msg.Creator, id, msg.Secret, msg.Amount, BeamStatusPending⟩)) := by
  induction tokens with
  | nil => rfl
  | cons t ts ih =>
    by_cases h : HasBeam k s t = true
    · simp [OpenBeam, mintedId, h, ih]
    · simp [OpenBeam, mintedId, h]; rfl

theorem mintedId_some (k : Keeper) (s : KVStore) (tokens : List GoString) (id : GoString)
    (h : mintedId k s tokens = some id) : id ∈ tokens ∧ HasBeam k s id = false := by
  induction tokens with
  | nil => simp [mintedId] at h
  | cons t ts ih =>
    by_cases hh : HasBeam k s t = true
    · simp only [mintedId, hh, if_true] at h
      exact ⟨List.mem_cons_of_mem _ (ih h).1, (ih h).2⟩
    · simp only [mintedId, hh] at h
      simp at h
      subst h
      exact ⟨List.mem_cons_self _ _, by simpa using hh⟩

theorem mintedId_isSome (k : Keeper) (s : KVStore) (tokens : List GoString)
    (h : ∃ t ∈ tokens, HasBeam k s t = false) : (mintedId k s tokens).isSome = true := by
  induction tokens with
  | nil => simp at h
  | cons t ts ih =>
    by_cases hh : HasBeam k s t = true
    · simp only [mintedId, hh, if_true]
      apply ih
      obtain ⟨t', ht', hf⟩ := h
      rcases List.mem_cons.mp ht' with e | e
      · subst e; rw [hh] at hf; cases hf
      · exact ⟨t', e, hf⟩
    · simp [mintedId, hh]

theorem HasBeam_UpdateBeam_mono (k : Keeper) (s : KVStore) (id x : GoString) (b : Beam)
    (h : HasBeam k s x = true) : HasBeam k (UpdateBeam k s id b) x = true := by
  by_cases hx : x = id
  · subst hx; exact HasBeam_UpdateBeam_same k s x b
  · rw [HasBeam_UpdateBeam_ne k s id x b hx]; exact h

theorem IncreaseBeam_effect (k : Keeper) (hF : k.cdc.Faithful) (s : KVStore)
    (msg : MsgIncreaseBeam) (e : Option BeamError) (s1 : KVStore)
    (h : IncreaseBeam k s msg = some (e, s1)) (id : GoString) (b : Beam)
    (hb : storedBeam k s id = some b) :
    storedBeam k s1 id = some b
    ∨ (msg.Id = id ∧ e = none
        ∧ storedBeam k s1 id
          = some { b with Amount := k.amountType.wrap (b.Amount + msg.Amount) }) := by
  by_cases hh : HasBeam k s msg.Id = true
  · cases hg : GetBeam k s msg.Id with
    | none => simp [IncreaseBeam, hh, hg] at h
    | some b0 =>
      have hb0 : storedBeam k s msg.Id = some b0 := by simp [storedBeam, hh, hg]
      rw [IncreaseBeam_stored k s msg b0 hb0] at h
      by_cases hc : b0.Creator = msg.Updater
      · rw [if_pos hc] at h
        simp only [Option.some.injEq, Prod.mk.injEq] at h
        obtain ⟨he, hs⟩ := h
        by_cases hid : id = msg.Id
        · subst hid
          rw [hb] at hb0
          cases hb0
          exact Or.inr ⟨rfl, he.symm, by rw [← hs]; exact storedBeam_UpdateBeam_same k hF _ _ _⟩
        · exact Or.inl (by rw [← hs, storedBeam_UpdateBeam_ne k s _ id _ hid]; exact hb)
      · rw [if_neg hc] at h
        simp only [Option.some.injEq, Prod.mk.injEq] at h
        exact Or.inl (by rw [← h.2]; exact hb)
  · have hh' : HasBeam k s msg.Id = false := by simpa using hh
    rw [IncreaseBeam_absent k s msg hh'] at h
    simp only [Option.some.injEq, Prod.mk.injEq] at h
    exact Or.inl (by rw [← h.2]; exact hb)

theorem CloseBeam_effect (k : Keeper) (hF : k.cdc.Faithful) (s : KVStore)
    (msg : MsgCloseBeam) (e : Option BeamError) (s1 : KVStore)
    (h : CloseBeam k s msg = some (e, s1)) (id : GoString) (b : Beam)
    (hb : storedBeam k s id = some b) :
    storedBeam k s1 id = some b
    ∨ (msg.Id = id ∧ e = none
        ∧ storedBeam k s1 id = some { b with Status := BeamStatusFinalized }) := by
  by_cases hh : HasBeam k s msg.Id = true
  · cases hg : GetBeam k s msg.Id with
    | none => simp [CloseBeam, hh, hg] at h
    | some b0 =>
      have hb0 : storedBeam k s msg.Id = some b0 := by simp [storedBeam, hh, hg]
      rw [CloseBeam_stored k s msg b0 hb0] at h
      by_cases hc : b0.Creator = msg.Updater
      · rw [if_pos hc] at h
        simp only [Option.some.injEq, Prod.mk.injEq] at h
        obtain ⟨he, hs⟩ := h
        by_cases hid : id = msg.Id
        · subst hid
          rw [hb] at hb0
          cases hb0
          exact Or.inr ⟨rfl, he.symm, by rw [← hs]; exact storedBeam_UpdateBeam_same k hF _ _ _⟩
        · exact Or.inl (by rw [← hs, storedBeam_UpdateBeam_ne k s _ id _ hid]; exact hb)
      · rw [if_neg hc] at h
        simp only [Option.some.injEq, Prod.mk.injEq] at h
        exact Or.inl (by rw [← h.2]; exact hb)
  · have hh' : HasBeam k s msg.Id = false := by simpa using hh
    rw [CloseBeam_absent k s msg hh'] at h
    simp only [Option.some.injEq, Prod.mk.injEq] at h
    exact Or.inl (by rw [← h.2]; exact hb)

theorem CancelBeam_effect (k : Keeper) (hF : k.cdc.Faithful) (s : KVStore)
    (msg : MsgCancelBeam) (e : Option BeamError) (s1 : KVStore)
    (h : CancelBeam k s msg = some (e, s1)) (id : GoString) (b : Beam)
    (hb : storedBeam k s id = some b) :
    storedBeam k s1 id = some b
    ∨ (msg.Id = id ∧ e = none
        ∧ storedBeam k s1 id = some { b with Status := BeamStatusCanceled }) := by
  by_cases hh : HasBeam k s msg.Id = true
  · cases hg : GetBeam k s msg.Id with
    | none => simp [CancelBeam, hh, hg] at h
    | some b0 =>
      have hb0 : storedBeam k s msg.Id = some b0 := by simp [storedBeam, hh, hg]
      rw [CancelBeam_stored k s msg b0 hb0] at h
      by_cases hc : b0.Creator = msg.Updater
      · rw [if_pos hc] at h
        simp only [Option.some.injEq, Prod.mk.injEq] at h
        obtain ⟨he, hs⟩ := h
        by_cases hid : id = msg.Id
        · subst hid
          rw [hb] at hb0
          cases hb0
          exact Or.inr ⟨rfl, he.symm, by rw [← hs]; exact storedBeam_UpdateBeam_same k hF _ _ _⟩
        · exact Or.inl (by rw [← hs, storedBeam_UpdateBeam_ne k s _ id _ hid]; exact hb)
      · rw [if_neg hc] at h
        simp only [Option.some.injEq, Prod.mk.injEq] at h
        exact Or.inl (by rw [← h.2]; exact hb)
  · have hh' : HasBeam k s msg.Id = false := by simpa using hh
    rw [CancelBeam_absent k s msg hh'] at h
    simp only [Option.some.injEq, Prod.mk.injEq] at h
    exact Or.inl (by rw [← h.2]; exact hb)

theorem ClaimBeam_effect (k : Keeper) (hF : k.cdc.Faithful) (s : KVStore)
    (msg : MsgClaimBeam) (e : Option BeamError) (s1 : KVStore)
    (h : ClaimBeam k s msg = some (e, s1)) (id : GoString) (b : Beam)
    (hb : storedBeam k s id = some b) :
    storedBeam k s1 id = some b
    ∨ (msg.Id = id ∧ e = none
        ∧ storedBeam k s1 id = some { b with Status := BeamStatusClaimed }) := by
  by_cases hh : HasBeam k s msg.Id = true
  · cases hg : GetBeam k s msg.Id with
    | none => simp [ClaimBeam, hh, hg] at h
    | some b0 =>
      have hb0 : storedBeam k s msg.Id = some b0 := by simp [storedBeam, hh, hg]
      rw [ClaimBeam_stored k s msg b0 hb0] at h
      by_cases hc : b0.Secret = msg.Secret
      · rw [if_pos hc] at h
        simp only [Option.some.injEq, Prod.mk.injEq] at h
        obtain ⟨he, hs⟩ := h
        by_cases hid : id = msg.Id
        · subst hid
          rw [hb] at hb0
          cases hb0
          exact Or.inr ⟨rfl, he.symm, by rw [← hs]; exact storedBeam_UpdateBeam_same k hF _ _ _⟩
        · exact Or.inl (by rw [← hs, storedBeam_UpdateBeam_ne k s _ id _ hid]; exact hb)
      · rw [if_neg hc] at h
        simp only [Option.some.injEq, Prod.mk.injEq] at h
        exact Or.inl (by rw [← h.2]; exact hb)
  · have hh' : HasBeam k s msg.Id = false := by simpa using hh
    rw [ClaimBeam_absent k s msg hh'] at h
    simp only [Option.some.injEq, Prod.mk.injEq] at h
    exact Or.inl (by rw [← h.2]; exact hb)

theorem OpenBeam_returns (k : Keeper) (s : KVStore) (msg : MsgOpenBeam)
    (tokens : List GoString) (e : Option BeamError) (s1 : KVStore)
    (h : OpenBeam k s msg tokens = some (e, s1)) :
    e = none ∧ ∃ id, mintedId k s tokens = some id ∧ id ∈ tokens ∧ HasBeam k s id = false
      ∧ s1 = UpdateBeam k s id ⟨msg.Creator, id, msg.Secret, msg.Amount, BeamStatusPending⟩ := by
  rw [OpenBeam_eq_mintedId] at h
  cases hm : mintedId k s tokens with
  | none => simp [hm] at h
  | some id =>
    simp only [hm, Option.map_some', Option.some.injEq, Prod.mk.injEq] at h
    obtain ⟨hin, hab⟩ := mintedId_some k s tokens id hm
    exact ⟨h.1.symm, id, rfl, hin, hab, h.2.symm⟩

theorem OpenBeam_effect (k : Keeper) (s : KVStore) (msg : MsgOpenBeam)
    (tokens : List GoString) (e : Option BeamError) (s1 : KVStore)
    (h : OpenBeam k s msg tokens = some (e, s1)) (id : GoString) (b : Beam)
    (hb : storedBeam k s id = some b) : storedBeam k s1 id = some b := by
  obtain ⟨_, t, _, _, hab, hs⟩ := OpenBeam_returns k s msg tokens e s1 h
  have hne : id ≠ t := by
    intro heq
    subst heq
    rw [(storedBeam_some k s _ b hb).1] at hab
    cases hab
  rw [hs, storedBeam_UpdateBeam_ne k s t id _ hne]
  exact hb

theorem Call.run_effect (k : Keeper) (hF : k.cdc.Faithful) (s : KVStore) (c : Call)
    (e : Option BeamError) (s1 : KVStore) (h : c.run k s = some (e, s1)) (id : GoString)
    (b : Beam) (hb : storedBeam k s id = some b) :
    ∃ b1, storedBeam k s1 id = some b1 ∧ b1.Creator = b.Creator ∧ b1.Id = b.Id
      ∧ b1.Secret = b.Secret
      ∧ (b1.Status = b.Status ∨ b1.Status ≠ BeamStatusPending) := by
  cases c with
  | openBeam msg tokens =>
    exact ⟨b, OpenBeam_effect k s msg tokens e s1 h id b hb, rfl, rfl, rfl, Or.inl rfl⟩
  | increaseBeam msg =>
    rcases IncreaseBeam_effect k hF s msg e s1 h id b hb with h1 | ⟨_, _, h1⟩
    · exact ⟨b, h1, rfl, rfl, rfl, Or.inl rfl⟩
    · exact ⟨_, h1, rfl, rfl, rfl, Or.inl rfl⟩
  | closeBeam msg =>
    rcases CloseBeam_effect k hF s msg e s1 h id b hb with h1 | ⟨_, _, h1⟩
    · exact ⟨b, h1, rfl, rfl, rfl, Or.inl rfl⟩
    · exact ⟨_, h1, rfl, rfl, rfl, Or.inr (by simp)⟩
  | cancelBeam msg =>
    rcases CancelBeam_effect k hF s msg e s1 h id b hb with h1 | ⟨_, _, h1⟩
    · exact ⟨b, h1, rfl, rfl, rfl, Or.inl rfl⟩
    · exact ⟨_, h1, rfl, rfl, rfl, Or.inr (by simp)⟩
  | claimBeam msg =>
    rcases ClaimBeam_effect k hF s msg e s1 h id b hb with h1 | ⟨_, _, h1⟩
    · exact ⟨b, h1, rfl, rfl, rfl, Or.inl rfl⟩
    · exact ⟨_, h1, rfl, rfl, rfl, Or.inr (by simp)⟩

theorem runCalls_cons (k : Keeper) (s : KVStore) (c : Call) (cs : List Call)
    (es : List (Option BeamError)) (s2 : KVStore) (h : runCalls k s (c :: cs) = some (es, s2)) :
    ∃ e s1 es1, c.run k s = some (e, s1) ∧ runCalls k s1 cs = some (es1, s2)
      ∧ es = e :: es1 := by
  unfold runCalls at h
  cases hc : c.run k s with
  | none => simp [hc] at h
  | some r =>
    obtain ⟨e, s1⟩ := r
    cases hr : runCalls k s1 cs with
    | none => simp [hc, hr] at h
    | some r1 =>
      obtain ⟨es1, s3⟩ := r1
      simp only [hc, hr, Option.some.injEq, Prod.mk.injEq] at h
      exact ⟨e, s1, es1, rfl, by rw [hr, h.2], h.1.symm⟩

theorem IncreaseBeam_writes (k : Keeper) (s : KVStore) (msg : MsgIncreaseBeam)
    (e : Option BeamError) (s1 : KVStore) (h : IncreaseBeam k s msg = some (e, s1)) :
    s1 = s ∨ ∃ b1, s1 = UpdateBeam k s msg.Id b1 := by
  by_cases hh : HasBeam k s msg.Id = true
  · cases hg : GetBeam k s msg.Id with
    | none => simp [IncreaseBeam, hh, hg] at h
    | some b0 =>
      rw [IncreaseBeam_stored k s msg b0 (by simp [storedBeam, hh, hg])] at h
      by_cases hc : b0.Creator = msg.Updater
      · rw [if_pos hc] at h
        simp only [Option.some.injEq, Prod.mk.injEq] at h
        exact Or.inr ⟨_, h.2.symm⟩
      · rw [if_neg hc] at h
        simp only [Option.some.injEq, Prod.mk.injEq] at h
        exact Or.inl h.2.symm
  · rw [IncreaseBeam_absent k s msg (by simpa using hh)] at h
    simp only [Option.some.injEq, Prod.mk.injEq] at h
    exact Or.inl h.2.symm

theorem CloseBeam_writes (k : Keeper) (s : KVStore) (msg : MsgCloseBeam)
    (e : Option BeamError) (s1 : KVStore) (h : CloseBeam k s msg = some (e, s1)) :
    s1 = s ∨ ∃ b1, s1 = UpdateBeam k s msg.Id b1 := by
  by_cases hh : HasBeam k s msg.Id = true
  · cases hg : GetBeam k s msg.Id with
    | none => simp [CloseBeam, hh, hg] at h
    | some b0 =>
      rw [CloseBeam_stored k s msg b0 (by simp [storedBeam, hh, hg])] at h
      by_cases hc : b0.Creator = msg.Updater
      · rw [if_pos hc] at h
        simp only [Option.some.injEq, Prod.mk.injEq] at h
        exact Or.inr ⟨_, h.2.symm⟩
      · rw [if_neg hc] at h
        simp only [Option.some.injEq, Prod.mk.injEq] at h
        exact Or.inl h.2.symm
  · rw [CloseBeam_absent k s msg (by simpa using hh)] at h
    simp only [Option.some.injEq, Prod.mk.injEq] at h
    exact Or.inl h.2.symm

theorem CancelBeam_writes (k : Keeper) (s : KVStore) (msg : MsgCancelBeam)
    (e : Option BeamError) (s1 : KVStore) (h : CancelBeam k s msg = some (e, s1)) :
    s1 = s ∨ ∃ b1, s1 = UpdateBeam k s msg.Id b1 := by
  by_cases hh : HasBeam k s msg.Id = true
  · cases hg : GetBeam k s msg.Id with
    | none => simp [CancelBeam, hh, hg] at h
    | some b0 =>
      rw [CancelBeam_stored k s msg b0 (by simp [storedBeam, hh, hg])] at h
      by_cases hc : b0.Creator = msg.Updater
      · rw [if_pos hc] at h
        simp only [Option.some.injEq, Prod.mk.injEq] at h
        exact Or.inr ⟨_, h.2.symm⟩
      · rw [if_neg hc] at h
        simp only [Option.some.injEq, Prod.mk.injEq] at h
        exact Or.inl h.2.symm
  · rw [CancelBeam_absent k s msg (by simpa using hh)] at h
    simp only [Option.some.injEq, Prod.mk.injEq] at h
    exact Or.inl h.2.symm

theorem ClaimBeam_writes (k : Keeper) (s : KVStore) (msg : MsgClaimBeam)
    (e : Option BeamError) (s1 : KVStore) (h : ClaimBeam k s msg = some (e, s1)) :
    s1 = s ∨ ∃ b1, s1 = UpdateBeam k s msg.Id b1 := by
  by_cases hh : HasBeam k s msg.Id = true
  · cases hg : GetBeam k s msg.Id with
    | none => simp [ClaimBeam, hh, hg] at h
    | some b0 =>
      rw [ClaimBeam_stored k s msg b0 (by simp [storedBeam, hh, hg])] at h
      by_cases hc : b0.Secret = msg.Secret
      · rw [if_pos hc] at h
        simp only [Option.some.injEq, Prod.mk.injEq] at h
        exact Or.inr ⟨_, h.2.symm⟩
      · rw [if_neg hc] at h
        simp only [Option.some.injEq, Prod.mk.injEq] at h
        exact Or.inl h.2.symm
  · rw [ClaimBeam_absent k s msg (by simpa using hh)] at h
    simp only [Option.some.injEq, Prod.mk.injEq] at h
    exact Or.inl h.2.symm

theorem Call.run_writes (k : Keeper) (s : KVStore) (c : Call) (e : Option BeamError)
    (s1 : KVStore) (h : c.run k s = some (e, s1)) :
    s1 = s ∨ ∃ x b1, s1 = UpdateBeam k s x b1 := by
  cases c with
  | openBeam msg tokens =>
    obtain ⟨_, id, _, _, _, hs⟩ := OpenBeam_returns k s msg tokens e s1 h
    exact Or.inr ⟨id, _, hs⟩
  | increaseBeam msg =>
    rcases IncreaseBeam_writes k s msg e s1 h with h1 | ⟨b1, h1⟩
    · exact Or.inl h1
    · exact Or.inr ⟨_, b1, h1⟩
  | closeBeam msg =>
    rcases CloseBeam_writes k s msg e s1 h with h1 | ⟨b1, h1⟩
    · exact Or.inl h1
    · exact Or.inr ⟨_, b1, h1⟩
  | cancelBeam msg =>
    rcases CancelBeam_writes k s msg e s1 h with h1 | ⟨b1, h1⟩
    · exact Or.inl h1
    · exact Or.inr ⟨_, b1, h1⟩
  | claimBeam msg =>
    rcases ClaimBeam_writes k s msg e s1 h with h1 | ⟨b1, h1⟩
    · exact Or.inl h1
    · exact Or.inr ⟨_, b1, h1⟩

theorem Call.run_HasBeam_mono (k : Keeper) (s : KVStore) (c : Call) (e : Option BeamError)
    (s1 : KVStore) (h : c.run k s = some (e, s1)) (x : GoString)
    (hx : HasBeam k s x = true) : HasBeam k s1 x = true := by
  rcases Call.run_writes k s c e s1 h with h1 | ⟨y, b1, h1⟩
  · rw [h1]; exact hx
  · rw [h1]; exact HasBeam_UpdateBeam_mono k s y x b1 hx

theorem mintedIds_fresh (k : Keeper) (calls : List Call) :
    ∀ (s : KVStore) (ids : List GoString) (s1 : KVStore),
      mintedIds k s calls = some (ids, s1) →
      ids.Nodup ∧ (∀ id ∈ ids, HasBeam k s id = false ∧ HasBeam k s1 id = true)
      ∧ (∀ x, HasBeam k s x = true → HasBeam k s1 x = true) := by
  induction calls with
  | nil =>
    intro s ids s1 h
    simp only [mintedIds, Option.some.injEq, Prod.mk.injEq] at h
    obtain ⟨h1, h2⟩ := h
    subst h1; subst h2
    simp
  | cons c cs ih =>
    intro s ids s2 h
    unfold mintedIds at h
    cases hc : c.run k s with
    | none => simp [hc] at h
    | some r =>
      obtain ⟨e, s1⟩ := r
      cases hr : mintedIds k s1 cs with
      | none => simp [hc, hr] at h
      | some r1 =>
        obtain ⟨ids1, s3⟩ := r1
        obtain ⟨hnd, hfresh, hmono⟩ := ih s1 ids1 s3 hr
        have hstep : ∀ x, HasBeam k s x = true → HasBeam k s1 x = true :=
          fun x hx => Call.run_HasBeam_mono k s c e s1 hc x hx
        have hold : ∀ x ∈ ids1, HasBeam k s x = false := by
          intro x hx
          cases hsx : HasBeam k s x with
          | false => rfl
          | true =>
            have := hstep x hsx
            rw [(hfresh x hx).1] at this
            cases this
        have hrest : ids1.Nodup ∧ (∀ id ∈ ids1, HasBeam k s id = false ∧ HasBeam k s3 id = true)
            ∧ (∀ x, HasBeam k s x = true → HasBeam k s3 x = true) :=
          ⟨hnd, fun x hx => ⟨hold x hx, (hfresh x hx).2⟩, fun x hx => hmono x (hstep x hx)⟩
        cases c with
        | openBeam msg tokens =>
          simp only [hc, hr, Option.some.injEq, Prod.mk.injEq] at h
          obtain ⟨h1, h2⟩ := h
          subst h1; subst h2
          obtain ⟨_, id, hm, _, hab, hs⟩ := OpenBeam_returns k s msg tokens e s1 hc
          have hid1 : HasBeam k s1 id = true := by
            rw [hs]; exact HasBeam_UpdateBeam_same k s id _
          rw [hm]
          simp only [Option.toList_some, List.singleton_append]
          refine ⟨?_, ?_, hrest.2.2⟩
          · refine List.nodup_cons.mpr ⟨?_, hnd⟩
            intro hmem
            have := (hfresh id hmem).1
            rw [hid1] at this
            cases this
          · intro x hx
            rcases List.mem_cons.mp hx with hx | hx
            · subst hx
              exact ⟨hab, hmono _ hid1⟩
            · exact hrest.2.1 x hx
        | increaseBeam msg =>
          simp only [hc, hr, Option.some.injEq, Prod.mk.injEq] at h
          obtain ⟨h1, h2⟩ := h
          subst h1; subst h2
          exact hrest
        | closeBeam msg =>
          simp only [hc, hr, Option.some.injEq, Prod.mk.injEq] at h
          obtain ⟨h1, h2⟩ := h
          subst h1; subst h2
          exact hrest
        | cancelBeam msg =>
          simp only [hc, hr, Option.some.injEq, Prod.mk.injEq] at h
          obtain ⟨h1, h2⟩ := h
          subst h1; subst h2
          exact hrest
        | claimBeam msg =>
          simp only [hc, hr, Option.some.injEq, Prod.mk.injEq] at h
          obtain ⟨h1, h2⟩ := h
          subst h1; subst h2
          exact hrest

theorem runCalls_effect (k : Keeper) (hF : k.cdc.Faithful) (id : GoString)
    (calls : List Call) :
    ∀ (s : KVStore) (b : Beam) (es : List (Option BeamError)) (s1 : KVStore),
      storedBeam k s id = some b → runCalls k s calls = some (es, s1) →
      ∃ b1, storedBeam k s1 id = some b1 ∧ b1.Creator = b.Creator ∧ b1.Id = b.Id
        ∧ b1.Secret = b.Secret
        ∧ (b1.Status = b.Status ∨ b1.Status ≠ BeamStatusPending) := by
  induction calls with
  | nil =>
    intro s b es s1 hb hrun
    simp only [runCalls, Option.some.injEq, Prod.mk.injEq] at hrun
    exact ⟨b, by rw [← hrun.2]; exact hb, rfl, rfl, rfl, Or.inl rfl⟩
  | cons c cs ih =>
    intro s b es s2 hb hrun
    obtain ⟨e, s1, es1, hc, hrest, _⟩ := runCalls_cons k s c cs es s2 hrun
    obtain ⟨b1, hb1, h1c, h1i, h1s, h1t⟩ := Call.run_effect k hF s c e s1 hc id b hb
    obtain ⟨b2, hb2, h2c, h2i, h2s, h2t⟩ := ih s1 b1 es1 s2 hb1 hrest
    refine ⟨b2, hb2, h2c.trans h1c, h2i.trans h1i, h2s.trans h1s, ?_⟩
    rcases h2t with h2t | h2t
    · rcases h1t with h1t | h1t
      · exact Or.inl (h2t.trans h1t)
      · exact Or.inr (by rw [h2t]; exact h1t)
    · exact Or.inr h2t

/-! ## The example codec is faithful -/

theorem decNat_encNat (n : Nat) (rest : Bytes) : decNat (encNat n ++ rest) = some (n, rest) := by
  induction n with
  | zero => simp [encNat, decNat]
  | succ n ih =>
    have : encNat (n + 1) ++ rest = 1 :: (encNat n ++ rest) := by
      simp [encNat, List.replicate_succ]
    rw [this]
    simp [decNat, ih]

theorem decStr_encStr (s : GoString) (rest : Bytes) :
    decStr (encStr s ++ rest) = some (s, rest) := by
  simp [decStr, encStr, List.append_assoc, decNat_encNat]

theorem decStatus_encStatus (st : BeamStatus) : decStatus (encStatus st) = some st := by
  cases st <;> decide

theorem ofDigits256_digits256 (fuel : Nat) :
    ∀ n : Nat, n ≤ fuel → ofDigits256 (digits256 fuel n) = n := by
  induction fuel with
  | zero =>
    intro n hn
    have : n = 0 := by omega
    subst this
    rfl
  | succ f ih =>
    intro n hn
    by_cases h0 : n = 0
    · subst h0; rfl
    · have hdiv : n / 256 ≤ f := by omega
      have hval : ((Fin.ofNat (n % 256) : Fin 256)).val = n % 256 := by
        simp [Fin.ofNat]
      simp only [digits256, h0, if_false, ofDigits256, ih (n / 256) hdiv, hval]
      omega

theorem ofIntDigits_intDigits (x : Int) : ofIntDigits (intDigits x) = some x := by
  have hd := ofDigits256_digits256 x.natAbs x.natAbs (le_refl _)
  have h10 : ¬ ((1 : Byte) = 0) := by decide
  by_cases hx : x < 0
  · simp only [intDigits, ofIntDigits, hx, if_true, h10, if_false, hd, Option.some.injEq]
    omega
  · simp only [intDigits, ofIntDigits, hx, if_false, if_true, hd, Option.some.injEq]
    omega

theorem exampleCodec_faithful : exampleCodec.Faithful := by
  intro b
  show exampleUnmarshal (exampleMarshal b) = some b
  have hne : exampleMarshal b ≠ [] := by
    simp [exampleMarshal, encStr, encNat]
  unfold exampleUnmarshal
  rw [if_neg hne]
  simp only [exampleMarshal, decStr_encStr, ofIntDigits_intDigits, decStatus_encStatus]

/-! ## C1: calls on a beam that is finalized, canceled or claimed -/

/-- C1, as stated, fails on scenario C: after open and cancel the stored beam is
canceled with amount `10`; `IncreaseBeam` by the creator with `5` then returns
no error at all (so not `InvalidState`) and the stored amount becomes `15`;
`CloseBeam` by the creator on the canceled beam returns no error and the stored
status becomes finalized. -/
theorem c1_counterexample :
    OpenBeam exampleKeeper [] ⟨str "carol", str "s3", 10⟩ [str "Z"] = some (none, storeZopened)
    ∧ CancelBeam exampleKeeper storeZopened ⟨str "Z", str "carol"⟩ = some (none, storeZcanceled)
    ∧ storedBeam exampleKeeper storeZcanceled (str "Z")
        = some ⟨str "carol", str "Z", str "s3", 10, BeamStatusCanceled⟩
    ∧ IncreaseBeam exampleKeeper storeZcanceled ⟨str "Z", str "carol", 5⟩
        = some (none, storeZincreased)
    ∧ (¬ ∃ s1, IncreaseBeam exampleKeeper storeZcanceled ⟨str "Z", str "carol", 5⟩
        = some (some BeamError.InvalidState, s1))
    ∧ storedBeam exampleKeeper storeZincreased (str "Z")
        = some ⟨str "carol", str "Z", str "s3", 15, BeamStatusCanceled⟩
    ∧ (∃ s1, CloseBeam exampleKeeper storeZcanceled ⟨str "Z", str "carol"⟩ = some (none, s1)
        ∧ storedBeam exampleKeeper s1 (str "Z")
          = some ⟨str "carol", str "Z", str "s3", 10, BeamStatusFinalized⟩) := by
  have hinc : IncreaseBeam exampleKeeper storeZcanceled ⟨str "Z", str "carol", 5⟩
      = some (none, storeZincreased) := by decide
  refine ⟨by decide, by decide, by decide, hinc, ?_, by decide, ?_⟩
  · rintro ⟨s1, h1⟩
    rw [hinc] at h1
    simp at h1
  exact ⟨UpdateBeam exampleKeeper storeZcanceled (str "Z")
    { beamZ with Status := BeamStatusFinalized }, by decide, by decide⟩

/-- C1, amended: the keeper has no status guard and no `InvalidState` error.
For a stored beam that is finalized, canceled or claimed (and a codec that
decodes what it encodes), each of `IncreaseBeam`, `CloseBeam`, `CancelBeam` and
`ClaimBeam` returns, never with `InvalidState`; a call by an updater other than
the creator (for `ClaimBeam`, with a secret other than the stored one) fails
with `NotAuthorized` and leaves the store unchanged; and whatever the
arguments, `IncreaseBeam` leaves the stored status unchanged while `CloseBeam`,
`CancelBeam` and `ClaimBeam` leave the stored amount unchanged. -/
theorem c1_calls_on_terminal_beam (k : Keeper) (hF : k.cdc.Faithful) (s : KVStore)
    (id : GoString) (b : Beam) (hb : storedBeam k s id = some b)
    (_hT : b.Status = BeamStatusFinalized ∨ b.Status = BeamStatusCanceled
      ∨ b.Status = BeamStatusClaimed)
    (updater secret : GoString) (amount : Int) :
    (∃ e s1 b1, IncreaseBeam k s ⟨id, updater, amount⟩ = some (e, s1)
        ∧ e ≠ some BeamError.InvalidState
        ∧ (updater ≠ b.Creator → e = some ErrBeamNotAuthorized ∧ s1 = s)
        ∧ storedBeam k s1 id = some b1 ∧ b1.Status = b.Status)
    ∧ (∃ e s1 b1, CloseBeam k s ⟨id, updater⟩ = some (e, s1)
        ∧ e ≠ some BeamError.InvalidState
        ∧ (updater ≠ b.Creator → e = some ErrBeamNotAuthorized ∧ s1 = s)
        ∧ storedBeam k s1 id = some b1 ∧ b1.Amount = b.Amount)
    ∧ (∃ e s1 b1, CancelBeam k s ⟨id, updater⟩ = some (e, s1)
        ∧ e ≠ some BeamError.InvalidState
        ∧ (updater ≠ b.Creator → e = some ErrBeamNotAuthorized ∧ s1 = s)
        ∧ storedBeam k s1 id = some b1 ∧ b1.Amount = b.Amount)
    ∧ (∃ e s1 b1, ClaimBeam k s ⟨id, secret⟩ = some (e, s1)
        ∧ e ≠ some BeamError.InvalidState
        ∧ (secret ≠ b.Secret → e = some ErrBeamNotAuthorized ∧ s1 = s)
        ∧ storedBeam k s1 id = some b1 ∧ b1.Amount = b.Amount) := by
  refine ⟨?_, ?_, ?_, ?_⟩
  · rw [IncreaseBeam_stored k s ⟨id, updater, amount⟩ b hb]
    by_cases hc : b.Creator = updater
    · rw [if_pos hc]
      exact ⟨none, _, _, rfl, by simp, fun h => absurd hc.symm h,
        storedBeam_UpdateBeam_same k hF _ _ _, rfl⟩
    · rw [if_neg hc]
      exact ⟨_, s, b, rfl, by simp [ErrBeamNotAuthorized], fun _ => ⟨rfl, rfl⟩, hb, rfl⟩
  · rw [CloseBeam_stored k s ⟨id, updater⟩ b hb]
    by_cases hc : b.Creator = updater
    · rw [if_pos hc]
      exact ⟨none, _, _, rfl, by simp, fun h => absurd hc.symm h,
        storedBeam_UpdateBeam_same k hF _ _ _, rfl⟩
    · rw [if_neg hc]
      exact ⟨_, s, b, rfl, by simp [ErrBeamNotAuthorized], fun _ => ⟨rfl, rfl⟩, hb, rfl⟩
  · rw [CancelBeam_stored k s ⟨id, updater⟩ b hb]
    by_cases hc : b.Creator = updater
    · rw [if_pos hc]
      exact ⟨none, _, _, rfl, by simp, fun h => absurd hc.symm h,
        storedBeam_UpdateBeam_same k hF _ _ _, rfl⟩
    · rw [if_neg hc]
      exact ⟨_, s, b, rfl, by simp [ErrBeamNotAuthorized], fun _ => ⟨rfl, rfl⟩, hb, rfl⟩
  · rw [ClaimBeam_stored k s ⟨id, secret⟩ b hb]
    by_cases hc : b.Secret = secret
    · rw [if_pos hc]
      exact ⟨none, _, _, rfl, by simp, fun h => absurd hc.symm h,
        storedBeam_UpdateBeam_same k hF _ _ _, rfl⟩
    · rw [if_neg hc]
      exact ⟨_, s, b, rfl, by simp [ErrBeamNotAuthorized], fun _ => ⟨rfl, rfl⟩, hb, rfl⟩

/-- C1, amended, at the canceled beam of scenario C, with the updater `mallory`,
the secret `bad` and the amount `5`. -/
theorem c1_calls_on_terminal_beam_witness :
    (storedBeam exampleKeeper storeZcanceled (str "Z")
        = some ⟨str "carol", str "Z", str "s3", 10, BeamStatusCanceled⟩)
    ∧ ((∃ e s1 b1, IncreaseBeam exampleKeeper storeZcanceled ⟨str "Z", str "mallory", 5⟩
            = some (e, s1)
          ∧ e ≠ some BeamError.InvalidState
          ∧ (str "mallory" ≠ str "carol" → e = some ErrBeamNotAuthorized ∧ s1 = storeZcanceled)
          ∧ storedBeam exampleKeeper s1 (str "Z") = some b1 ∧ b1.Status = BeamStatusCanceled)
      ∧ (∃ e s1 b1, CloseBeam exampleKeeper storeZcanceled ⟨str "Z", str "mallory"⟩
            = some (e, s1)
          ∧ e ≠ some BeamError.InvalidState
          ∧ (str "mallory" ≠ str "carol" → e = some ErrBeamNotAuthorized ∧ s1 = storeZcanceled)
          ∧ storedBeam exampleKeeper s1 (str "Z") = some b1 ∧ b1.Amount = 10)
      ∧ (∃ e s1 b1, CancelBeam exampleKeeper storeZcanceled ⟨str "Z", str "mallory"⟩
            = some (e, s1)
          ∧ e ≠ some BeamError.InvalidState
          ∧ (str "mallory" ≠ str "carol" → e = some ErrBeamNotAuthorized ∧ s1 = storeZcanceled)
          ∧ storedBeam exampleKeeper s1 (str "Z") = some b1 ∧ b1.Amount = 10)
      ∧ (∃ e s1 b1, ClaimBeam exampleKeeper storeZcanceled ⟨str "Z", str "bad"⟩ = some (e, s1)
          ∧ e ≠ some BeamError.InvalidState
          ∧ (str "bad" ≠ str "s3" → e = some ErrBeamNotAuthorized ∧ s1 = storeZcanceled)
          ∧ storedBeam exampleKeeper s1 (str "Z") = some b1 ∧ b1.Amount = 10)) :=
  ⟨by decide,
    c1_calls_on_terminal_beam exampleKeeper exampleCodec_faithful storeZcanceled (str "Z")
      ⟨str "carol", str "Z", str "s3", 10, BeamStatusCanceled⟩ (by decide)
      (Or.inr (Or.inl rfl)) (str "mallory") (str "bad") 5⟩

/-! ## C2: only the creator may increase, close or cancel -/

/-- C2: when a beam is stored under `id` and the updater is not its creator,
`IncreaseBeam`, `CloseBeam` and `CancelBeam` each return the `NotAuthorized`
error and the store after the call is the store before it. -/
theorem c2_updater_must_be_creator (k : Keeper) (s : KVStore) (id : GoString) (b : Beam)
    (hb : storedBeam k s id = some b) (updater : GoString) (hne : updater ≠ b.Creator)
    (amount : Int) :
    IncreaseBeam k s ⟨id, updater, amount⟩ = some (some ErrBeamNotAuthorized, s)
    ∧ CloseBeam k s ⟨id, updater⟩ = some (some ErrBeamNotAuthorized, s)
    ∧ CancelBeam k s ⟨id, updater⟩ = some (some ErrBeamNotAuthorized, s)
    ∧ ErrBeamNotAuthorized = BeamError.NotAuthorized := by
  have hc : ¬ b.Creator = updater := fun e => hne e.symm
  refine ⟨?_, ?_, ?_, rfl⟩
  · rw [IncreaseBeam_stored k s ⟨id, updater, amount⟩ b hb, if_neg hc]
  · rw [CloseBeam_stored k s ⟨id, updater⟩ b hb, if_neg hc]
  · rw [CancelBeam_stored k s ⟨id, updater⟩ b hb, if_neg hc]

/-- C2 at the pending beam of scenario C, with the updater `mallory`. -/
theorem c2_updater_must_be_creator_witness :
    (storedBeam exampleKeeper storeZopened (str "Z") = some beamZ
      ∧ str "mallory" ≠ beamZ.Creator)
    ∧ (IncreaseBeam exampleKeeper storeZopened ⟨str "Z", str "mallory", 7⟩
          = some (some ErrBeamNotAuthorized, storeZopened)
        ∧ CloseBeam exampleKeeper storeZopened ⟨str "Z", str "mallory"⟩
          = some (some ErrBeamNotAuthorized, storeZopened)
        ∧ CancelBeam exampleKeeper storeZopened ⟨str "Z", str "mallory"⟩
          = some (some ErrBeamNotAuthorized, storeZopened)
        ∧ ErrBeamNotAuthorized = BeamError.NotAuthorized) :=
  ⟨⟨by decide, by decide⟩,
    c2_updater_must_be_creator exampleKeeper storeZopened (str "Z") beamZ (by decide)
      (str "mallory") (by decide) 7⟩

/-! ## C3: claim is decided by the secret -/

/-- C3: for a pending beam stored under `id` (and a codec that decodes what it
encodes), `ClaimBeam` returns no error and leaves the beam stored with status
claimed exactly when the secret presented is the stored secret; with any other
secret it returns `NotAuthorized` and the store, hence the stored pending beam,
is unchanged. The call takes the id and the secret only: no caller identity is
an input of the decision. -/
theorem c3_claim_decided_by_secret (k : Keeper) (hF : k.cdc.Faithful) (s : KVStore)
    (id : GoString) (b : Beam) (hb : storedBeam k s id = some b)
    (hP : b.Status = BeamStatusPending) (secret : GoString) :
    ((∃ s1, ClaimBeam k s ⟨id, secret⟩ = some (none, s1)
        ∧ storedBeam k s1 id = some { b with Status := BeamStatusClaimed })
      ↔ secret = b.Secret)
    ∧ (secret ≠ b.Secret →
        ClaimBeam k s ⟨id, secret⟩ = some (some ErrBeamNotAuthorized, s)
        ∧ (storedBeam k s id).map (fun x => x.Status) = some BeamStatusPending) := by
  have hcl := ClaimBeam_stored k s ⟨id, secret⟩ b hb
  refine ⟨⟨?_, ?_⟩, ?_⟩
  · rintro ⟨s1, h1, _⟩
    by_cases hc : b.Secret = secret
    · exact hc.symm
    · rw [hcl, if_neg hc] at h1
      simp at h1
  · intro hc
    rw [hcl, if_pos hc.symm]
    exact ⟨_, rfl, storedBeam_UpdateBeam_same k hF _ _ _⟩
  · intro hne
    have hc : ¬ b.Secret = secret := fun e => hne e.symm
    rw [hcl, if_neg hc, hb]
    exact ⟨rfl, by simp [hP]⟩

/-- C3 at the pending beam of scenario C, with the secret `wrong`. -/
theorem c3_claim_decided_by_secret_witness :
    (storedBeam exampleKeeper storeZopened (str "Z") = some beamZ
      ∧ beamZ.Status = BeamStatusPending)
    ∧ (((∃ s1, ClaimBeam exampleKeeper storeZopened ⟨str "Z", str "wrong"⟩ = some (none, s1)
          ∧ storedBeam exampleKeeper s1 (str "Z")
            = some { beamZ with Status := BeamStatusClaimed })
        ↔ str "wrong" = beamZ.Secret)
      ∧ (str "wrong" ≠ beamZ.Secret →
          ClaimBeam exampleKeeper storeZopened ⟨str "Z", str "wrong"⟩
            = some (some ErrBeamNotAuthorized, storeZopened)
          ∧ (storedBeam exampleKeeper storeZopened (str "Z")).map (fun x => x.Status)
            = some BeamStatusPending)) :=
  ⟨⟨by decide, by decide⟩,
    c3_claim_decided_by_secret exampleKeeper exampleCodec_faithful storeZopened (str "Z") beamZ
      (by decide) (by decide) (str "wrong")⟩

/-! ## C4: calls on an id that has no entry -/

/-- C4: when `id` has no entry in the store, `IncreaseBeam`, `CloseBeam`,
`CancelBeam` and `ClaimBeam` each return the `NotFound` error, whatever the
updater, secret or amount, and the store after the call is the store before
it. -/
theorem c4_absent_id_not_found (k : Keeper) (s : KVStore) (id : GoString)
    (h : HasBeam k s id = false) (updater secret : GoString) (amount : Int) :
    IncreaseBeam k s ⟨id, updater, amount⟩ = some (some ErrBeamNotFound, s)
    ∧ CloseBeam k s ⟨id, updater⟩ = some (some ErrBeamNotFound, s)
    ∧ CancelBeam k s ⟨id, updater⟩ = some (some ErrBeamNotFound, s)
    ∧ ClaimBeam k s ⟨id, secret⟩ = some (some ErrBeamNotFound, s)
    ∧ ErrBeamNotFound = BeamError.NotFound :=
  ⟨IncreaseBeam_absent k s ⟨id, updater, amount⟩ h, CloseBeam_absent k s ⟨id, updater⟩ h,
    CancelBeam_absent k s ⟨id, updater⟩ h, ClaimBeam_absent k s ⟨id, secret⟩ h, rfl⟩

/-- C4 at the store of scenario C and the id `Q`, which has no entry. -/
theorem c4_absent_id_not_found_witness :
    HasBeam exampleKeeper storeZopened (str "Q") = false
    ∧ (IncreaseBeam exampleKeeper storeZopened ⟨str "Q", str "carol", 5⟩
          = some (some ErrBeamNotFound, storeZopened)
        ∧ CloseBeam exampleKeeper storeZopened ⟨str "Q", str "carol"⟩
          = some (some ErrBeamNotFound, storeZopened)
        ∧ CancelBeam exampleKeeper storeZopened ⟨str "Q", str "carol"⟩
          = some (some ErrBeamNotFound, storeZopened)
        ∧ ClaimBeam exampleKeeper storeZopened ⟨str "Q", str "s3"⟩
          = some (some ErrBeamNotFound, storeZopened)
        ∧ ErrBeamNotFound = BeamError.NotFound) :=
  ⟨by decide,
    c4_absent_id_not_found exampleKeeper storeZopened (str "Q") (by decide) (str "carol")
      (str "s3") 5⟩

/-! ## C5: the three terminal transitions -/

/-- C5: for a pending beam stored under `id` (and a codec that decodes what it
encodes), `CloseBeam` by the creator returns no error and the beam then stored
under `id` is the same beam with status finalized; `CancelBeam` by the creator
returns no error and leaves status canceled; `ClaimBeam` with the stored secret
returns no error and leaves status claimed. -/
theorem c5_terminal_transitions (k : Keeper) (hF : k.cdc.Faithful) (s : KVStore)
    (id : GoString) (b : Beam) (hb : storedBeam k s id = some b)
    (_hP : b.Status = BeamStatusPending) :
    (∃ s1, CloseBeam k s ⟨id, b.Creator⟩ = some (none, s1)
        ∧ storedBeam k s1 id = some { b with Status := BeamStatusFinalized })
    ∧ (∃ s1, CancelBeam k s ⟨id, b.Creator⟩ = some (none, s1)
        ∧ storedBeam k s1 id = some { b with Status := BeamStatusCanceled })
    ∧ (∃ s1, ClaimBeam k s ⟨id, b.Secret⟩ = some (none, s1)
        ∧ storedBeam k s1 id = some { b with Status := BeamStatusClaimed }) := by
  refine ⟨?_, ?_, ?_⟩
  · rw [CloseBeam_stored k s ⟨id, b.Creator⟩ b hb, if_pos rfl]
    exact ⟨_, rfl, storedBeam_UpdateBeam_same k hF _ _ _⟩
  · rw [CancelBeam_stored k s ⟨id, b.Creator⟩ b hb, if_pos rfl]
    exact ⟨_, rfl, storedBeam_UpdateBeam_same k hF _ _ _⟩
  · rw [ClaimBeam_stored k s ⟨id, b.Secret⟩ b hb, if_pos rfl]
    exact ⟨_, rfl, storedBeam_UpdateBeam_same k hF _ _ _⟩

/-- C5 at the pending beam of scenario C. -/
theorem c5_terminal_transitions_witness :
    (storedBeam exampleKeeper storeZopened (str "Z") = some beamZ
      ∧ beamZ.Status = BeamStatusPending)
    ∧ ((∃ s1, CloseBeam exampleKeeper storeZopened ⟨str "Z", beamZ.Creator⟩ = some (none, s1)
          ∧ storedBeam exampleKeeper s1 (str "Z")
            = some { beamZ with Status := BeamStatusFinalized })
      ∧ (∃ s1, CancelBeam exampleKeeper storeZopened ⟨str "Z", beamZ.Creator⟩ = some (none, s1)
          ∧ storedBeam exampleKeeper s1 (str "Z")
            = some { beamZ with Status := BeamStatusCanceled })
      ∧ (∃ s1, ClaimBeam exampleKeeper storeZopened ⟨str "Z", beamZ.Secret⟩ = some (none, s1)
          ∧ storedBeam exampleKeeper s1 (str "Z")
            = some { beamZ with Status := BeamStatusClaimed })) :=
  ⟨⟨by decide, by decide⟩,
    c5_terminal_transitions exampleKeeper exampleCodec_faithful storeZopened (str "Z") beamZ
      (by decide) (by decide)⟩

/-! ## C6: the amount accumulates the deltas, in Go arithmetic -/

/-- C7: when `OpenBeam` returns (the codec decoding what it encodes), it
returns no error, and there is an id, one of the tokens drawn, that had no
entry before the call and under which the store now holds the beam with the
creator, secret and amount of the message, status pending, and `Id` equal to
that id. It does return as soon as one of the tokens drawn has no entry. -/
theorem c7_open_creates_beam (k : Keeper) (hF : k.cdc.Faithful) (s : KVStore)
    (msg : MsgOpenBeam) (tokens : List GoString) :
    (∀ (e : Option BeamError) (s1 : KVStore), OpenBeam k s msg tokens = some (e, s1) →
        e = none ∧ ∃ id, id ∈ tokens ∧ HasBeam k s id = false ∧ HasBeam k s1 id = true
          ∧ storedBeam k s1 id
            = some ⟨msg.Creator, id, msg.Secret, msg.Amount, BeamStatusPending⟩)
    ∧ ((∃ t ∈ tokens, HasBeam k s t = false) →
        ∃ s1, OpenBeam k s msg tokens = some (none, s1)) := by
  refine ⟨?_, ?_⟩
  · intro e s1 h
    obtain ⟨he, id, _, hin, hab, hs⟩ := OpenBeam_returns k s msg tokens e s1 h
    refine ⟨he, id, hin, hab, ?_, ?_⟩
    · rw [hs]; exact HasBeam_UpdateBeam_same k s id _
    · rw [hs]; exact storedBeam_UpdateBeam_same k hF s id _
  · intro hex
    have hsome := mintedId_isSome k s tokens hex
    rw [OpenBeam_eq_mintedId]
    cases hm : mintedId k s tokens with
    | none => rw [hm] at hsome; cases hsome
    | some id => exact ⟨_, rfl⟩

/-- C7 on the store of scenario C, the tokens drawn being `Z` (taken) and then
`Y`: the beam of `bob` is stored under `Y`. -/
theorem c7_open_creates_beam_witness :
    (OpenBeam exampleKeeper storeZopened ⟨str "bob", str "s2", 10⟩ [str "Z", str "Y"]
        = some (none, UpdateBeam exampleKeeper storeZopened (str "Y")
            ⟨str "bob", str "Y", str "s2", 10, BeamStatusPending⟩))
    ∧ ((none : Option BeamError) = none
      ∧ ∃ id, id ∈ [str "Z", str "Y"] ∧ HasBeam exampleKeeper storeZopened id = false
        ∧ HasBeam exampleKeeper (UpdateBeam exampleKeeper storeZopened (str "Y")
            ⟨str "bob", str "Y", str "s2", 10, BeamStatusPending⟩) id = true
        ∧ storedBeam exampleKeeper (UpdateBeam exampleKeeper storeZopened (str "Y")
            ⟨str "bob", str "Y", str "s2", 10, BeamStatusPending⟩) id
          = some ⟨str "bob", id, str "s2", 10, BeamStatusPending⟩) :=
  ⟨by decide,
    (c7_open_creates_beam exampleKeeper exampleCodec_faithful storeZopened
      ⟨str "bob", str "s2", 10⟩ [str "Z", str "Y"]).1 none _ (by decide)⟩

/-! ## C8: the ids minted are fresh -/

/-- C8: when `OpenBeam` returns, the id under which it wrote had no entry in
the store before the call, every entry stored before is still stored with the
same value, and the store has exactly one entry more. Hence in any sequence of
lifecycle calls that all return, the ids written by the `OpenBeam` calls among
them are pairwise distinct; none of them had an entry in the initial store and
all of them have one in the final store. -/
theorem c8_minted_ids_fresh (k : Keeper) (s : KVStore) :
    (∀ (msg : MsgOpenBeam) (tokens : List GoString) (e : Option BeamError) (s1 : KVStore),
        OpenBeam k s msg tokens = some (e, s1) →
        ∃ id, mintedId k s tokens = some id
          ∧ s1 = UpdateBeam k s id ⟨msg.Creator, id, msg.Secret, msg.Amount, BeamStatusPending⟩
          ∧ HasBeam k s id = false
          ∧ s.lookup (beamStoreKey id) = none
          ∧ (∀ key v, s.lookup key = some v → s1.lookup key = some v)
          ∧ s1.length = s.length + 1)
    ∧ (∀ (calls : List Call) (ids : List GoString) (s1 : KVStore),
        mintedIds k s calls = some (ids, s1) →
        ids.Nodup ∧ ∀ id ∈ ids, HasBeam k s id = false ∧ HasBeam k s1 id = true) := by
  refine ⟨?_, ?_⟩
  · intro msg tokens e s1 h
    obtain ⟨_, id, hm, _, hab, hs⟩ := OpenBeam_returns k s msg tokens e s1 h
    have hnone : s.lookup (beamStoreKey id) = none := by
      rw [HasBeam_eq] at hab
      cases hl : s.lookup (beamStoreKey id) with
      | none => rfl
      | some v => rw [hl] at hab; cases hab
    refine ⟨id, hm, hs, hab, hnone, ?_, ?_⟩
    · intro key v hv
      have hne : key ≠ beamStoreKey id := by
        intro heq
        rw [heq, hnone] at hv
        cases hv
      rw [hs, UpdateBeam_eq, KVStore.lookup_Set_ne _ _ _ _ hne]
      exact hv
    · rw [hs, UpdateBeam_eq]
      exact KVStore.length_Set_absent _ _ _ hnone
  · intro calls ids s1 h
    obtain ⟨hnd, hfresh, _⟩ := mintedIds_fresh k calls s ids s1 h
    exact ⟨hnd, hfresh⟩

/-- C8 on the store of scenario C: an open that draws `Z` (taken) then `Y`, a
claim of `Y`, and an open that draws `Y`, `Z` (both taken) then `X`; the ids
written are `Y` and `X`. -/
theorem c8_minted_ids_fresh_witness :
    (mintedIds exampleKeeper storeZopened
        [Call.openBeam ⟨str "bob", str "s2", 10⟩ [str "Z", str "Y"],
         Call.claimBeam ⟨str "Y", str "s2"⟩,
         Call.openBeam ⟨str "alice", str "s1", 20⟩ [str "Y", str "Z", str "X"]]
        = some ([str "Y", str "X"], storeZYX))
    ∧ ([str "Y", str "X"].Nodup
      ∧ ∀ id ∈ [str "Y", str "X"],
          HasBeam exampleKeeper storeZopened id = false
          ∧ HasBeam exampleKeeper storeZYX id = true) :=
  ⟨by decide,
    (c8_minted_ids_fresh exampleKeeper storeZopened).2
      [Call.openBeam ⟨str "bob", str "s2", 10⟩ [str "Z", str "Y"],
       Call.claimBeam ⟨str "Y", str "s2"⟩,
       Call.openBeam ⟨str "alice", str "s1", 20⟩ [str "Y", str "Z", str "X"]]
      [str "Y", str "X"] storeZYX (by decide)⟩

/-! ## C9: no beam returns to pending -/

/-- C9: when the beam stored under `id` has a status other than pending (the
codec decoding what it encodes), then after any finite sequence of `OpenBeam`,
`IncreaseBeam`, `CloseBeam`, `CancelBeam` and `ClaimBeam` calls, with arbitrary
arguments, in which every call returns, a beam is still stored under `id` and
its status is not pending. -/
theorem c9_no_return_to_pending (k : Keeper) (hF : k.cdc.Faithful) (s : KVStore)
    (id : GoString) (b : Beam) (hb : storedBeam k s id = some b)
    (hN : b.Status ≠ BeamStatusPending) (calls : List Call)
    (es : List (Option BeamError)) (s1 : KVStore)
    (hrun : runCalls k s calls = some (es, s1)) :
    ∃ b1, storedBeam k s1 id = some b1 ∧ b1.Status ≠ BeamStatusPending := by
  obtain ⟨b1, hb1, _, _, _, ht⟩ := runCalls_effect k hF id calls s b es s1 hb hrun
  refine ⟨b1, hb1, ?_⟩
  rcases ht with ht | ht
  · rw [ht]; exact hN
  · exact ht

/-- C9 at the canceled beam of scenario C and the five calls `callsZ`, which
all return no error. -/
theorem c9_no_return_to_pending_witness :
    (storedBeam exampleKeeper storeZcanceled (str "Z")
        = some ⟨str "carol", str "Z", str "s3", 10, BeamStatusCanceled⟩
      ∧ BeamStatusCanceled ≠ BeamStatusPending
      ∧ runCalls exampleKeeper storeZcanceled callsZ
        = some ([none, none, none, none, none], storeZlast))
    ∧ ∃ b1, storedBeam exampleKeeper storeZlast (str "Z") = some b1
        ∧ b1.Status ≠ BeamStatusPending :=
  ⟨⟨by decide, by decide, by decide⟩,
    c9_no_return_to_pending exampleKeeper exampleCodec_faithful storeZcanceled (str "Z")
      ⟨str "carol", str "Z", str "s3", 10, BeamStatusCanceled⟩ (by decide) (by decide) callsZ
      [none, none, none, none, none] storeZlast (by decide)⟩

/-! ## C10: how a call changes the amount -/

theorem IncreaseBeam_shape (k : Keeper) (s : KVStore) (msg : MsgIncreaseBeam)
    (e : Option BeamError) (s1 : KVStore) (h : IncreaseBeam k s msg = some (e, s1)) :
    s1 = s ∨ ∃ b0 b1, storedBeam k s msg.Id = some b0 ∧ s1 = UpdateBeam k s msg.Id b1
      ∧ b1.Id = b0.Id ∧ b1.Creator = b0.Creator ∧ b1.Secret = b0.Secret := by
  by_cases hh : HasBeam k s msg.Id = true
  · cases hg : GetBeam k s msg.Id with
    | none => simp [IncreaseBeam, hh, hg] at h
    | some b0 =>
      have hb0 : storedBeam k s msg.Id = some b0 := by simp [storedBeam, hh, hg]
      rw [IncreaseBeam_stored k s msg b0 hb0] at h
      by_cases hc : b0.Creator = msg.Updater
      · rw [if_pos hc] at h
        simp only [Option.some.injEq, Prod.mk.injEq] at h
        exact Or.inr ⟨b0, _, hb0, h.2.symm, rfl, rfl, rfl⟩
      · rw [if_neg hc] at h
        simp only [Option.some.injEq, Prod.mk.injEq] at h
        exact Or.inl h.2.symm
  · rw [IncreaseBeam_absent k s msg (by simpa using hh)] at h
    simp only [Option.some.injEq, Prod.mk.injEq] at h
    exact Or.inl h.2.symm

theorem CloseBeam_shape (k : Keeper) (s : KVStore) (msg : MsgCloseBeam)
    (e : Option BeamError) (s1 : KVStore) (h : CloseBeam k s msg = some (e, s1)) :
    s1 = s ∨ ∃ b0 b1, storedBeam k s msg.Id = some b0 ∧ s1 = UpdateBeam k s msg.Id b1
      ∧ b1.Id = b0.Id ∧ b1.Creator = b0.Creator ∧ b1.Secret = b0.Secret := by
  by_cases hh : HasBeam k s msg.Id = true
  · cases hg : GetBeam k s msg.Id with
    | none => simp [CloseBeam, hh, hg] at h
    | some b0 =>
      have hb0 : storedBeam k s msg.Id = some b0 := by simp [storedBeam, hh, hg]
      rw [CloseBeam_stored k s msg b0 hb0] at h
      by_cases hc : b0.Creator = msg.Updater
      · rw [if_pos hc] at h
        simp only [Option.some.injEq, Prod.mk.injEq] at h
        exact Or.inr ⟨b0, _, hb0, h.2.symm, rfl, rfl, rfl⟩
      · rw [if_neg hc] at h
        simp only [Option.some.injEq, Prod.mk.injEq] at h
        exact Or.inl h.2.symm
  · rw [CloseBeam_absent k s msg (by simpa using hh)] at h
    simp only [Option.some.injEq, Prod.mk.injEq] at h
    exact Or.inl h.2.symm

theorem CancelBeam_shape (k : Keeper) (s : KVStore) (msg : MsgCancelBeam)
    (e : Option BeamError) (s1 : KVStore) (h : CancelBeam k s msg = some (e, s1)) :
    s1 = s ∨ ∃ b0 b1, storedBeam k s msg.Id = some b0 ∧ s1 = UpdateBeam k s msg.Id b1
      ∧ b1.Id = b0.Id ∧ b1.Creator = b0.Creator ∧ b1.Secret = b0.Secret := by
  by_cases hh : HasBeam k s msg.Id = true
  · cases hg : GetBeam k s msg.Id with
    | none => simp [CancelBeam, hh, hg] at h
    | some b0 =>
      have hb0 : storedBeam k s msg.Id = some b0 := by simp [storedBeam, hh, hg]
      rw [CancelBeam_stored k s msg b0 hb0] at h
      by_cases hc : b0.Creator = msg.Updater
      · rw [if_pos hc] at h
        simp only [Option.some.injEq, Prod.mk.injEq] at h
        exact Or.inr ⟨b0, _, hb0, h.2.symm, rfl, rfl, rfl⟩
      · rw [if_neg hc] at h
        simp only [Option.some.injEq, Prod.mk.injEq] at h
        exact Or.inl h.2.symm
  · rw [CancelBeam_absent k s msg (by simpa using hh)] at h
    simp only [Option.some.injEq, Prod.mk.injEq] at h
    exact Or.inl h.2.symm

theorem ClaimBeam_shape (k : Keeper) (s : KVStore) (msg : MsgClaimBeam)
    (e : Option BeamError) (s1 : KVStore) (h : ClaimBeam k s msg = some (e, s1)) :
    s1 = s ∨ ∃ b0 b1, storedBeam k s msg.Id = some b0 ∧ s1 = UpdateBeam k s msg.Id b1
      ∧ b1.Id = b0.Id ∧ b1.Creator = b0.Creator ∧ b1.Secret = b0.Secret := by
  by_cases hh : HasBeam k s msg.Id = true
  · cases hg : GetBeam k s msg.Id with
    | none => simp [ClaimBeam, hh, hg] at h
    | some b0 =>
      have hb0 : storedBeam k s msg.Id = some b0 := by simp [storedBeam, hh, hg]
      rw [ClaimBeam_stored k s msg b0 hb0] at h
      by_cases hc : b0.Secret = msg.Secret
      · rw [if_pos hc] at h
        simp only [Option.some.injEq, Prod.mk.injEq] at h
        exact Or.inr ⟨b0, _, hb0, h.2.symm, rfl, rfl, rfl⟩
      · rw [if_neg hc] at h
        simp only [Option.some.injEq, Prod.mk.injEq] at h
        exact Or.inl h.2.symm
  · rw [ClaimBeam_absent k s msg (by simpa using hh)] at h
    simp only [Option.some.injEq, Prod.mk.injEq] at h
    exact Or.inl h.2.symm

theorem frame_of_rewrite (k : Keeper) (s : KVStore) (x : GoString) (b0 b1 : Beam)
    (hx : storedBeam k s x = some b0) :
    (∀ id, HasBeam k (UpdateBeam k s x b1) id = HasBeam k s id)
    ∧ (∀ key, key ≠ beamStoreKey x → (UpdateBeam k s x b1).lookup key = s.lookup key) := by
  refine ⟨?_, ?_⟩
  · intro id
    by_cases hid : id = x
    · subst hid
      rw [HasBeam_UpdateBeam_same, (storedBeam_some k s _ b0 hx).1]
    · exact HasBeam_UpdateBeam_ne k s x id b1 hid
  · intro key hkey
    rw [UpdateBeam_eq, KVStore.lookup_Set_ne _ _ _ _ hkey]

theorem frame_of_shape (k : Keeper) (s s1 : KVStore) (x : GoString)
    (h : s1 = s ∨ ∃ b0 b1, storedBeam k s x = some b0 ∧ s1 = UpdateBeam k s x b1
      ∧ b1.Id = b0.Id ∧ b1.Creator = b0.Creator ∧ b1.Secret = b0.Secret) :
    (∀ id, HasBeam k s1 id = HasBeam k s id)
    ∧ (∀ key, key ≠ beamStoreKey x → s1.lookup key = s.lookup key)
    ∧ (∀ id, id ≠ x → s1.lookup (beamStoreKey id) = s.lookup (beamStoreKey id)) := by
  have hkeys : (∀ id, HasBeam k s1 id = HasBeam k s id)
      ∧ (∀ key, key ≠ beamStoreKey x → s1.lookup key = s.lookup key) := by
    rcases h with h | ⟨b0, b1, hb0, hs, _⟩
    · subst h; exact ⟨fun _ => rfl, fun _ _ => rfl⟩
    · subst hs; exact frame_of_rewrite k s x b0 b1 hb0
  exact ⟨hkeys.1, hkeys.2,
    fun id hid => hkeys.2 _ (fun heq => hid (beamStoreKey_injective _ _ heq))⟩

theorem keyId_of_shape (k : Keeper) (hF : k.cdc.Faithful) (s s1 : KVStore) (x : GoString)
    (h : s1 = s ∨ ∃ b0 b1, storedBeam k s x = some b0 ∧ s1 = UpdateBeam k s x b1
      ∧ b1.Id = b0.Id ∧ b1.Creator = b0.Creator ∧ b1.Secret = b0.Secret)
    (hinv : KeyIdConsistent k s) : KeyIdConsistent k s1 := by
  rcases h with h | ⟨b0, b1, hb0, hs, hid, _, _⟩
  · subst h; exact hinv
  · subst hs
    intro id b hb
    by_cases hx : id = x
    · subst hx
      rw [storedBeam_UpdateBeam_same k hF] at hb
      cases hb
      rw [hid]
      exact hinv _ b0 hb0
    · rw [storedBeam_UpdateBeam_ne k s x id b1 hx] at hb
      exact hinv id b hb

theorem Call.run_keyId (k : Keeper) (hF : k.cdc.Faithful) (s : KVStore) (c : Call)
    (e : Option BeamError) (s1 : KVStore) (h : c.run k s = some (e, s1))
    (hinv : KeyIdConsistent k s) : KeyIdConsistent k s1 := by
  cases c with
  | openBeam msg tokens =>
    obtain ⟨_, t, _, _, _, hs⟩ := OpenBeam_returns k s msg tokens e s1 h
    subst hs
    intro id b hb
    by_cases hx : id = t
    · subst hx
      rw [storedBeam_UpdateBeam_same k hF] at hb
      cases hb
      rfl
    · rw [storedBeam_UpdateBeam_ne k s t id _ hx] at hb
      exact hinv id b hb
  | increaseBeam msg => exact keyId_of_shape k hF s s1 _ (IncreaseBeam_shape k s msg e s1 h) hinv
  | closeBeam msg => exact keyId_of_shape k hF s s1 _ (CloseBeam_shape k s msg e s1 h) hinv
  | cancelBeam msg => exact keyId_of_shape k hF s s1 _ (CancelBeam_shape k s msg e s1 h) hinv
  | claimBeam msg => exact keyId_of_shape k hF s s1 _ (ClaimBeam_shape k s msg e s1 h) hinv

theorem runCalls_keyId (k : Keeper) (hF : k.cdc.Faithful) (calls : List Call) :
    ∀ (s : KVStore) (es : List (Option BeamError)) (s1 : KVStore),
      runCalls k s calls = some (es, s1) → KeyIdConsistent k s → KeyIdConsistent k s1 := by
  induction calls with
  | nil =>
    intro s es s1 hrun hinv
    simp only [runCalls, Option.some.injEq, Prod.mk.injEq] at hrun
    rw [← hrun.2]; exact hinv
  | cons c cs ih =>
    intro s es s2 hrun hinv
    obtain ⟨e, s1, es1, hc, hrest, _⟩ := runCalls_cons k s c cs es s2 hrun
    exact ih s1 es1 s2 hrest (Call.run_keyId k hF s c e s1 hc hinv)

theorem KeyIdConsistent_nil (k : Keeper) : KeyIdConsistent k [] := by
  intro id b hb
  have := (storedBeam_some k [] id b hb).1
  simp [HasBeam_eq, KVStore.lookup] at this

/-! ## Lemmas on the key order and on sorted stores -/

theorem keyLt_irrefl (a : Bytes) : keyLt a a = false := by
  induction a with
  | nil => rfl
  | cons x xs ih => simp [keyLt, ih]

theorem keyLt_trans : ∀ (a b c : Bytes), keyLt a b = true → keyLt b c = true →
    keyLt a c = true := by
  intro a
  induction a with
  | nil =>
    intro b c hab hbc
    cases b with
    | nil => simp [keyLt] at hab
    | cons y ys =>
      cases c with
      | nil => simp [keyLt] at hbc
      | cons z zs => rfl
  | cons x xs ih =>
    intro b c hab hbc
    cases b with
    | nil => simp [keyLt] at hab
    | cons y ys =>
      cases c with
      | nil => simp [keyLt] at hbc
      | cons z zs =>
        simp only [keyLt] at hab hbc ⊢
        by_cases hxy : x < y
        · by_cases hyz : y < z
          · simp [lt_trans hxy hyz]
          · simp only [hyz, if_false] at hbc
            by_cases hzy : z < y
            · simp [hzy] at hbc
            · have : y = z := le_antisymm (not_lt.mp hzy) (not_lt.mp hyz)
              subst this
              simp [hxy]
        · simp only [hxy, if_false] at hab
          by_cases hyx : y < x
          · simp [hyx] at hab
          · have : x = y := le_antisymm (not_lt.mp hyx) (not_lt.mp hxy)
            subst this
            simp only [hyx, if_false] at hab
            by_cases hxz : x < z
            · simp [hxz]
            · simp only [hxz, if_false] at hbc ⊢
              by_cases hzx : z < x
              · simp [hzx] at hbc
              · simp only [hzx, if_false] at hbc ⊢
                exact ih ys zs hab hbc

theorem keyLt_total : ∀ (a b : Bytes), a ≠ b → keyLt a b = false → keyLt b a = true := by
  intro a
  induction a with
  | nil =>
    intro b hne h
    cases b with
    | nil => exact absurd rfl hne
    | cons y ys => simp [keyLt] at h
  | cons x xs ih =>
    intro b hne h
    cases b with
    | nil => rfl
    | cons y ys =>
      simp only [keyLt] at h ⊢
      by_cases hxy : x < y
      · simp [hxy] at h
      · simp only [hxy, if_false] at h
        by_cases hyx : y < x
        · simp [hyx]
        · simp only [hyx, if_false] at h ⊢
          have hxe : x = y := le_antisymm (not_lt.mp hyx) (not_lt.mp hxy)
          subst hxe
          simp only [hxy, if_false]
          exact ih ys (fun heq => hne (by rw [heq])) h

theorem KVStore.mem_Set (s : KVStore) (k v : Bytes) (e : Bytes × Bytes)
    (he : e ∈ KVStore.Set s k v) : e = (k, v) ∨ e ∈ s := by
  induction s with
  | nil => simpa [KVStore.Set] using he
  | cons x rest ih =>
    obtain ⟨k', v'⟩ := x
    by_cases h1 : k' = k
    · simp only [KVStore.Set, h1, if_true, List.mem_cons] at he
      rcases he with he | he
      · exact Or.inl he
      · exact Or.inr (List.mem_cons_of_mem _ he)
    · by_cases h2 : keyLt k k' = true
      · simp only [KVStore.Set, h1, h2, if_true, if_false, List.mem_cons] at he
        rcases he with he | he | he
        · exact Or.inl he
        · exact Or.inr (by rw [he]; exact List.mem_cons_self _ _)
        · exact Or.inr (List.mem_cons_of_mem _ he)
      · simp only [KVStore.Set, h1, h2, if_false] at he
        rcases List.mem_cons.mp he with he1 | he1
        · exact Or.inr (by rw [he1]; exact List.mem_cons_self _ _)
        · rcases ih he1 with h | h
          · exact Or.inl h
          · exact Or.inr (List.mem_cons_of_mem _ h)

theorem KVStore.Sorted_nil : KVStore.Sorted [] := List.Pairwise.nil

theorem KVStore.Sorted_Set (s : KVStore) (k v : Bytes) (hs : s.Sorted) :
    (KVStore.Set s k v).Sorted := by
  induction s with
  | nil => simp [KVStore.Set, KVStore.Sorted]
  | cons x rest ih =>
    obtain ⟨k', v'⟩ := x
    have hs' := List.pairwise_cons.mp hs
    by_cases h1 : k' = k
    · subst h1
      simp only [KVStore.Set, if_true]
      exact List.pairwise_cons.mpr ⟨hs'.1, hs'.2⟩
    · by_cases h2 : keyLt k k' = true
      · simp only [KVStore.Set, h1, h2, if_true, if_false]
        refine List.pairwise_cons.mpr ⟨?_, hs⟩
        intro e he
        rcases List.mem_cons.mp he with he | he
        · rw [he]; exact h2
        · exact keyLt_trans _ _ _ h2 (hs'.1 e he)
      · simp only [KVStore.Set, h1, h2, if_false]
        refine List.pairwise_cons.mpr ⟨?_, ih hs'.2⟩
        intro e he
        rcases KVStore.mem_Set rest k v e he with he | he
        · rw [he]
          exact keyLt_total k k' (fun heq => h1 heq.symm) (by simpa using h2)
        · exact hs'.1 e he

theorem KVStore.lookup_of_mem (s : KVStore) (hs : s.Sorted) (k v : Bytes)
    (h : (k, v) ∈ s) : s.lookup k = some v := by
  induction s with
  | nil => simp at h
  | cons x rest ih =>
    obtain ⟨k', v'⟩ := x
    have hs' := List.pairwise_cons.mp hs
    rcases List.mem_cons.mp h with h | h
    · simp only [Prod.mk.injEq] at h
      simp [KVStore.lookup, h.1, h.2]
    · have hlt := hs'.1 (k, v) h
      have hne : ¬ k' = k := by
        intro heq
        subst heq
        rw [keyLt_irrefl] at hlt
        cases hlt
      simp only [KVStore.lookup, hne, if_false]
      exact ih hs'.2 h

theorem KVStore.mem_of_lookup (s : KVStore) (k v : Bytes) (h : s.lookup k = some v) :
    (k, v) ∈ s := by
  induction s with
  | nil => simp [KVStore.lookup] at h
  | cons x rest ih =>
    obtain ⟨k', v'⟩ := x
    by_cases h1 : k' = k
    · simp only [KVStore.lookup, h1, if_true, Option.some.injEq] at h
      rw [h1, h]
      exact List.mem_cons_self _ _
    · simp only [KVStore.lookup, h1, if_false] at h
      exact List.mem_cons_of_mem _ (ih h)

theorem UpdateBeam_Sorted (k : Keeper) (s : KVStore) (id : GoString) (b : Beam)
    (hs : s.Sorted) : (UpdateBeam k s id b).Sorted := by
  rw [UpdateBeam_eq]; exact KVStore.Sorted_Set s _ _ hs

theorem Call.run_Sorted (k : Keeper) (s : KVStore) (c : Call) (e : Option BeamError)
    (s1 : KVStore) (h : c.run k s = some (e, s1)) (hs : s.Sorted) : s1.Sorted := by
  rcases Call.run_writes k s c e s1 h with h1 | ⟨x, b1, h1⟩
  · rw [h1]; exact hs
  · rw [h1]; exact UpdateBeam_Sorted k s x b1 hs

theorem runCalls_Sorted (k : Keeper) (calls : List Call) :
    ∀ (s : KVStore) (es : List (Option BeamError)) (s1 : KVStore),
      runCalls k s calls = some (es, s1) → s.Sorted → s1.Sorted := by
  induction calls with
  | nil =>
    intro s es s1 hrun hs
    simp only [runCalls, Option.some.injEq, Prod.mk.injEq] at hrun
    rw [← hrun.2]; exact hs
  | cons c cs ih =>
    intro s es s2 hrun hs
    obtain ⟨e, s1, es1, hc, hrest, _⟩ := runCalls_cons k s c cs es s2 hrun
    exact ih s1 es1 s2 hrest (Call.run_Sorted k s c e s1 hc hs)

/-! ## Lemmas on the scan of the beams -/

theorem isBeamEntry_iff (e : Bytes × Bytes) :
    isBeamEntry e = true ↔ ∃ id, e.1 = beamStoreKey id := by
  unfold isBeamEntry
  rw [List.isPrefixOf_iff_prefix]
  constructor
  · rintro ⟨t, ht⟩
    exact ⟨t, by simp [beamStoreKey, PrefixStore.key, NewStore, KeyPrefix, ← ht]⟩
  · rintro ⟨id, hid⟩
    exact ⟨id, by simp [hid, beamStoreKey, PrefixStore.key, NewStore, KeyPrefix]⟩

theorem foldlM_decode (k : Keeper) (l : List (Bytes × Bytes)) :
    ∀ acc : List Beam,
      l.foldlM (fun msgs e => (k.cdc.MustUnmarshalBinaryBare e.2).map (fun msg => msgs ++ [msg]))
          acc
        = (decodeAll k (l.map (fun e => e.2))).map (fun bs => acc ++ bs) := by
  induction l with
  | nil => intro acc; simp [decodeAll]
  | cons x xs ih =>
    intro acc
    simp only [List.foldlM_cons, List.map_cons, decodeAll]
    cases hd : k.cdc.MustUnmarshalBinaryBare x.2 with
    | none => simp
    | some b =>
      simp only [Option.map_some', Option.some_bind, ih]
      cases decodeAll k (xs.map (fun e => e.2)) with
      | none => simp
      | some bs => simp

theorem ListBeams_eq_listSpec (k : Keeper) (s : KVStore) : ListBeams k s = listSpec k s := by
  unfold ListBeams listSpec
  simp only [foldlM_decode, KVStorePrefixIterator, KVStore.iterate, NewStore, List.map_map]
  have hf : (fun e : Bytes × Bytes => (KeyPrefix BeamKey ++ KeyPrefix BeamKey).isPrefixOf e.1)
      = isBeamEntry := rfl
  rw [hf]
  have hm : ((fun e : Bytes × Bytes => e.2)
      ∘ fun e : Bytes × Bytes => (List.drop (KeyPrefix BeamKey).length e.1, e.2))
      = fun e => e.2 := rfl
  rw [hm]
  cases decodeAll k (List.map (fun e => e.2) (List.filter isBeamEntry s)) with
  | none => rfl
  | some bs => simp

theorem decodeAll_some (k : Keeper) (vs : List Bytes) :
    ∀ l, decodeAll k vs = some l →
      l.length = vs.length
      ∧ ∀ b, b ∈ l ↔ ∃ v ∈ vs, k.cdc.MustUnmarshalBinaryBare v = some b := by
  induction vs with
  | nil =>
    intro l h
    simp only [decodeAll, Option.some.injEq] at h
    subst h
    simp
  | cons v vs ih =>
    intro l h
    unfold decodeAll at h
    cases hd : k.cdc.MustUnmarshalBinaryBare v with
    | none => simp [hd] at h
    | some b0 =>
      cases hr : decodeAll k vs with
      | none => simp [hd, hr] at h
      | some bs =>
        simp only [hd, hr, Option.some.injEq] at h
        subst h
        obtain ⟨hlen, hmem⟩ := ih bs hr
        refine ⟨by simp [hlen], ?_⟩
        intro b
        constructor
        · intro hb
          rcases List.mem_cons.mp hb with hb | hb
          · exact ⟨v, List.mem_cons_self _ _, by rw [hd, hb]⟩
          · obtain ⟨v1, hv1, hdec⟩ := (hmem b).mp hb
            exact ⟨v1, List.mem_cons_of_mem _ hv1, hdec⟩
        · rintro ⟨v1, hv1, hdec⟩
          rcases List.mem_cons.mp hv1 with hv1 | hv1
          · subst hv1
            rw [hd] at hdec
            cases hdec
            exact List.mem_cons_self _ _
          · exact List.mem_cons_of_mem _ ((hmem b).mpr ⟨v1, hv1, hdec⟩)

theorem decodeAll_isSome (k : Keeper) (vs : List Bytes)
    (h : ∀ v ∈ vs, (k.cdc.MustUnmarshalBinaryBare v).isSome = true) :
    (decodeAll k vs).isSome = true := by
  induction vs with
  | nil => rfl
  | cons v vs ih =>
    have h1 := h v (List.mem_cons_self _ _)
    have h2 := ih (fun v1 hv1 => h v1 (List.mem_cons_of_mem _ hv1))
    unfold decodeAll
    cases hd : k.cdc.MustUnmarshalBinaryBare v with
    | none => rw [hd] at h1; cases h1
    | some b0 =>
      cases hr : decodeAll k vs with
      | none => rw [hr] at h2; cases h2
      | some bs => rfl

theorem storedBeam_iff_entry (k : Keeper) (s : KVStore) (hs : s.Sorted) (b : Beam) :
    (∃ id, storedBeam k s id = some b)
      ↔ ∃ v ∈ (s.filter isBeamEntry).map (fun e => e.2),
          k.cdc.MustUnmarshalBinaryBare v = some b := by
  constructor
  · rintro ⟨id, hid⟩
    obtain ⟨hh, hg⟩ := storedBeam_some k s id b hid
    rw [HasBeam_eq] at hh
    rw [GetBeam_eq] at hg
    cases hl : s.lookup (beamStoreKey id) with
    | none => rw [hl] at hh; cases hh
    | some v =>
      rw [hl] at hg
      refine ⟨v, ?_, hg⟩
      refine List.mem_map.mpr ⟨(beamStoreKey id, v), ?_, rfl⟩
      exact List.mem_filter.mpr ⟨KVStore.mem_of_lookup s _ _ hl,
        (isBeamEntry_iff _).mpr ⟨id, rfl⟩⟩
  · rintro ⟨v, hv, hdec⟩
    obtain ⟨e, he, hev⟩ := List.mem_map.mp hv
    obtain ⟨hes, hbe⟩ := List.mem_filter.mp he
    obtain ⟨id, hid⟩ := (isBeamEntry_iff e).mp hbe
    have hl : s.lookup (beamStoreKey id) = some v := by
      apply KVStore.lookup_of_mem s hs
      rw [← hid, ← hev]
      exact hes
    refine ⟨id, ?_⟩
    simp [storedBeam, HasBeam_eq, GetBeam_eq, hl, hdec]

theorem HasBeam_iff_entry (k : Keeper) (s : KVStore) (id : GoString) :
    HasBeam k s id = true ↔ beamStoreKey id ∈ (s.filter isBeamEntry).map (fun e => e.1) := by
  rw [HasBeam_eq]
  constructor
  · intro h
    cases hl : s.lookup (beamStoreKey id) with
    | none => rw [hl] at h; cases h
    | some v =>
      exact List.mem_map.mpr ⟨(beamStoreKey id, v),
        List.mem_filter.mpr ⟨KVStore.mem_of_lookup s _ _ hl, (isBeamEntry_iff _).mpr ⟨id, rfl⟩⟩,
        rfl⟩
  · intro h
    obtain ⟨e, he, hek⟩ := List.mem_map.mp h
    have hes := (List.mem_filter.mp he).1
    clear he
    induction s with
    | nil => simp at hes
    | cons x rest ih =>
      obtain ⟨k', v'⟩ := x
      by_cases h1 : k' = beamStoreKey id
      · simp [KVStore.lookup, h1]
      · simp only [KVStore.lookup, h1, if_false]
        rcases List.mem_cons.mp hes with hx | hx
        · rw [hx] at hek
          exact absurd hek h1
        · exact ih (List.mem_map.mpr ⟨e, List.mem_filter.mpr ⟨hx, (isBeamEntry_iff _).mpr
            ⟨id, hek⟩⟩, hek⟩) hx

theorem beamEntries_ascending (s : KVStore) (hs : s.Sorted) :
    ((s.filter isBeamEntry).map (fun e => e.1)).Pairwise (fun a b => keyLt a b = true) := by
  rw [List.pairwise_map]
  exact List.Pairwise.sublist (List.filter_sublist s) hs

theorem entries_of_key (s : KVStore) (hs : s.Sorted) (key : Bytes) :
    (s.filter (fun e => decide (e.1 = key))).length = if s.Has key then 1 else 0 := by
  induction s with
  | nil => simp [KVStore.Has, KVStore.lookup]
  | cons x rest ih =>
    obtain ⟨k', v'⟩ := x
    have hs' := List.pairwise_cons.mp hs
    by_cases h1 : k' = key
    · subst h1
      have hnone : rest.filter (fun e => decide (e.1 = k')) = [] := by
        apply List.filter_eq_nil_iff.mpr
        intro e he heq
        have hlt := hs'.1 e he
        have : e.1 = k' := by simpa using heq
        rw [this, keyLt_irrefl] at hlt
        cases hlt
      simp [KVStore.Has, KVStore.lookup, hnone]
    · have := ih hs'.2
      simp only [KVStore.Has] at this
      simp [KVStore.Has, KVStore.lookup, h1, this]

theorem OpenBeam_all_taken (k : Keeper) (s : KVStore) (msg : MsgOpenBeam)
    (tokens : List GoString) (h : ∀ t ∈ tokens, HasBeam k s t = true) :
    OpenBeam k s msg tokens = none := by
  induction tokens with
  | nil => rfl
  | cons t ts ih =>
    simp only [OpenBeam, h t (List.mem_cons_self _ _), if_true]
    exact ih (fun t1 ht1 => h t1 (List.mem_cons_of_mem _ ht1))

theorem OpenBeam_after_taken (k : Keeper) (s : KVStore) (msg : MsgOpenBeam)
    (taken : List GoString) (fresh : GoString) (rest : List GoString)
    (h : ∀ t ∈ taken, HasBeam k s t = true) (hf : HasBeam k s fresh = false) :
    OpenBeam k s msg (taken ++ fresh :: rest)
      = some (none, UpdateBeam k s fresh
          ⟨msg.Creator, fresh, msg.Secret, msg.Amount, BeamStatusPending⟩) := by
  induction taken with
  | nil => simp [OpenBeam, hf]; rfl
  | cons t ts ih =>
    simp only [List.cons_append, OpenBeam, h t (List.mem_cons_self _ _), if_true]
    exact ih (fun t1 ht1 => h t1 (List.mem_cons_of_mem _ ht1))

theorem GetBeam_absent (k : Keeper) (s : KVStore) (id : GoString)
    (h : HasBeam k s id = false) : GetBeam k s id = k.cdc.MustUnmarshalBinaryBare [] := by
  rw [HasBeam_eq] at h
  rw [GetBeam_eq]
  cases hl : s.lookup (beamStoreKey id) with
  | none => rfl
  | some v => rw [hl] at h; cases h

theorem BeamKey_length : BeamKey.length = 11 := by decide

theorem beamStoreKey_ne_single (id : GoString) : beamStoreKey id ≠ BeamKey ++ id := by
  intro h
  have h1 : (beamStoreKey id).length = (BeamKey ++ id).length := by rw [h]
  simp [beamStoreKey, PrefixStore.key, NewStore, KeyPrefix, BeamKey_length] at h1

/-! ## C11: creator, secret and id never change -/

/-- C11: for a beam stored under `id` (the codec decoding what it encodes) and
any call of `IncreaseBeam`, `CloseBeam`, `CancelBeam` or `ClaimBeam` that
returns, whatever its arguments, the beam stored under `id` after the call has
the same creator, secret and `Id` field as before; after `IncreaseBeam` it also
has the same status, so that only the amount can differ. -/
theorem c11_immutable_fields (k : Keeper) (hF : k.cdc.Faithful) (s : KVStore)
    (id : GoString) (b : Beam) (hb : storedBeam k s id = some b)
    (e : Option BeamError) (s1 : KVStore) :
    (∀ msg, IncreaseBeam k s msg = some (e, s1) →
        ∃ b1, storedBeam k s1 id = some b1 ∧ b1.Creator = b.Creator ∧ b1.Secret = b.Secret
          ∧ b1.Id = b.Id ∧ b1.Status = b.Status)
    ∧ (∀ msg, CloseBeam k s msg = some (e, s1) →
        ∃ b1, storedBeam k s1 id = some b1 ∧ b1.Creator = b.Creator ∧ b1.Secret = b.Secret
          ∧ b1.Id = b.Id)
    ∧ (∀ msg, CancelBeam k s msg = some (e, s1) →
        ∃ b1, storedBeam k s1 id = some b1 ∧ b1.Creator = b.Creator ∧ b1.Secret = b.Secret
          ∧ b1.Id = b.Id)
    ∧ (∀ msg, ClaimBeam k s msg = some (e, s1) →
        ∃ b1, storedBeam k s1 id = some b1 ∧ b1.Creator = b.Creator ∧ b1.Secret = b.Secret
          ∧ b1.Id = b.Id) := by
  refine ⟨?_, ?_, ?_, ?_⟩
  · intro msg h
    rcases IncreaseBeam_effect k hF s msg e s1 h id b hb with h1 | ⟨_, _, h1⟩
    · exact ⟨b, h1, rfl, rfl, rfl, rfl⟩
    · exact ⟨_, h1, rfl, rfl, rfl, rfl⟩
  · intro msg h
    rcases CloseBeam_effect k hF s msg e s1 h id b hb with h1 | ⟨_, _, h1⟩
    · exact ⟨b, h1, rfl, rfl, rfl⟩
    · exact ⟨_, h1, rfl, rfl, rfl⟩
  · intro msg h
    rcases CancelBeam_effect k hF s msg e s1 h id b hb with h1 | ⟨_, _, h1⟩
    · exact ⟨b, h1, rfl, rfl, rfl⟩
    · exact ⟨_, h1, rfl, rfl, rfl⟩
  · intro msg h
    rcases ClaimBeam_effect k hF s msg e s1 h id b hb with h1 | ⟨_, _, h1⟩
    · exact ⟨b, h1, rfl, rfl, rfl⟩
    · exact ⟨_, h1, rfl, rfl, rfl⟩

/-- C11 at the pending beam of scenario C and the increase by `5` of its
creator. -/
theorem c11_immutable_fields_witness :
    (storedBeam exampleKeeper storeZopened (str "Z") = some beamZ
      ∧ IncreaseBeam exampleKeeper storeZopened ⟨str "Z", str "carol", 5⟩
        = some (none, UpdateBeam exampleKeeper storeZopened (str "Z")
            { beamZ with Amount := 15 }))
    ∧ ∃ b1, storedBeam exampleKeeper
          (UpdateBeam exampleKeeper storeZopened (str "Z") { beamZ with Amount := 15 })
          (str "Z") = some b1
        ∧ b1.Creator = beamZ.Creator ∧ b1.Secret = beamZ.Secret ∧ b1.Id = beamZ.Id
        ∧ b1.Status = beamZ.Status :=
  ⟨⟨by decide, by decide⟩,
    (c11_immutable_fields exampleKeeper exampleCodec_faithful storeZopened (str "Z") beamZ
      (by decide) none _).1 ⟨str "Z", str "carol", 5⟩ (by decide)⟩

/-! ## C12: `GetBeam` on an id that has no entry -/

/-- C12, as stated, fails on the store of scenario C at the id `Q`, which has
no entry: `GetBeam` returns the zero-valued beam, with no error, and the query
`getBeam` returns the rendering of that beam with a `nil` error, not a
`NotFound` one. -/
theorem c12_counterexample :
    HasBeam exampleKeeper storeZopened (str "Q") = false
    ∧ GetBeam exampleKeeper storeZopened (str "Q") = some ⟨[], [], [], 0, BeamStatusPending⟩
    ∧ getBeam storeZopened (str "Q") exampleKeeper exampleAmino
        = some (exampleMarshal ⟨[], [], [], 0, BeamStatusPending⟩, none)
    ∧ (¬ ∃ bz, getBeam storeZopened (str "Q") exampleKeeper exampleAmino
        = some (bz, some (QueryError.beam BeamError.NotFound))) := by
  have hq : getBeam storeZopened (str "Q") exampleKeeper exampleAmino
      = some (exampleMarshal ⟨[], [], [], 0, BeamStatusPending⟩, none) := by decide
  refine ⟨by decide, by decide, hq, ?_⟩
  rintro ⟨bz, h⟩
  rw [hq] at h
  simp at h

/-- C12, amended: `GetBeam` has no `NotFound` outcome; its result is a beam,
not an error. For an id with no entry it returns whatever the codec decodes
from the empty value (with a protobuf-style codec, the zero-valued beam), and
panics when the codec does not decode it. The absence is explicit through
`HasBeam` only, which is false for the id, so that no beam counts as stored
under it. -/
theorem c12_get_on_absent_id (k : Keeper) (s : KVStore) (id : GoString)
    (h : HasBeam k s id = false) :
    GetBeam k s id = k.cdc.MustUnmarshalBinaryBare [] ∧ storedBeam k s id = none :=
  ⟨GetBeam_absent k s id h, storedBeam_absent k s id h⟩

/-- C12, amended, on the store of scenario C at the id `Q`. -/
theorem c12_get_on_absent_id_witness :
    HasBeam exampleKeeper storeZopened (str "Q") = false
    ∧ (GetBeam exampleKeeper storeZopened (str "Q")
          = exampleKeeper.cdc.MustUnmarshalBinaryBare []
        ∧ storedBeam exampleKeeper storeZopened (str "Q") = none) :=
  ⟨by decide, c12_get_on_absent_id exampleKeeper storeZopened (str "Q") (by decide)⟩

/-! ## C13: the list of the beams -/

/-- C13: for every store (its keys in ascending order, as the key-value store
keeps them), `ListBeams` is the list of the spec: the entries of the beams and
nothing else, each decoded, in the order of the store, which is the ascending
byte order of their keys. An id has an entry among them exactly when `HasBeam`
is true for it; when the call returns, the list has one beam per entry and a
beam is in it exactly when it is the beam stored under some id; and the call
returns when every entry decodes. When moreover every beam stored has as `Id`
the id it is stored under, a beam is in the list exactly when it is the beam
stored under its `Id`. The query `fetchBeams` renders that list. The method
only reads: its result has no store. -/
theorem c13_list_reflects_store (k : Keeper) (s : KVStore) (hs : s.Sorted) :
    ListBeams k s = listSpec k s
    ∧ ((s.filter isBeamEntry).map (fun e => e.1)).Pairwise (fun a b => keyLt a b = true)
    ∧ (∀ e, e ∈ s.filter isBeamEntry ↔ e ∈ s ∧ ∃ id, e.1 = beamStoreKey id)
    ∧ (∀ id, HasBeam k s id = true
        ↔ beamStoreKey id ∈ (s.filter isBeamEntry).map (fun e => e.1))
    ∧ (∀ l, ListBeams k s = some l →
        l.length = (s.filter isBeamEntry).length
        ∧ ∀ b, b ∈ l ↔ ∃ id, storedBeam k s id = some b)
    ∧ ((∀ e ∈ s.filter isBeamEntry, (k.cdc.MustUnmarshalBinaryBare e.2).isSome = true) →
        (ListBeams k s).isSome = true)
    ∧ (∀ l, ListBeams k s = some l → KeyIdConsistent k s →
        ∀ b, b ∈ l ↔ storedBeam k s b.Id = some b)
    ∧ (∀ (amino : LegacyAmino) (l : List Beam), ListBeams k s = some l →
        fetchBeams s k amino
          = match amino.MarshalJSONIndentList l with
            | none => some ([], some QueryError.ErrJSONMarshal)
            | some bz => some (bz, none)) := by
  refine ⟨ListBeams_eq_listSpec k s, beamEntries_ascending s hs, ?_,
    fun id => HasBeam_iff_entry k s id, ?_, ?_, ?_, ?_⟩
  · intro e
    rw [List.mem_filter, isBeamEntry_iff]
  · intro l hl
    rw [ListBeams_eq_listSpec] at hl
    obtain ⟨hlen, hmem⟩ := decodeAll_some k _ l hl
    refine ⟨by simpa using hlen, ?_⟩
    intro b
    rw [hmem b, storedBeam_iff_entry k s hs b]
  · intro hall
    rw [ListBeams_eq_listSpec]
    apply decodeAll_isSome
    intro v hv
    obtain ⟨e, he, hev⟩ := List.mem_map.mp hv
    rw [← hev]
    exact hall e he
  · intro l hl hinv b
    rw [ListBeams_eq_listSpec] at hl
    rw [(decodeAll_some k _ l hl).2 b, ← storedBeam_iff_entry k s hs b]
    constructor
    · rintro ⟨id, hid⟩
      rw [hinv id b hid]
      exact hid
    · intro h
      exact ⟨b.Id, h⟩
  · intro amino l hl
    simp only [fetchBeams, hl]

/-- C13 on the store with the beams `X`, `Y` and `Z`: the list is the three
beams in the order of their keys. -/
theorem c13_list_reflects_store_witness :
    storeZYX.Sorted
    ∧ ListBeams exampleKeeper storeZYX
        = some [⟨str "alice", str "X", str "s1", 20, BeamStatusPending⟩,
                ⟨str "bob", str "Y", str "s2", 10, BeamStatusClaimed⟩,
                ⟨str "carol", str "Z", str "s3", 10, BeamStatusPending⟩]
    ∧ ListBeams exampleKeeper storeZYX = listSpec exampleKeeper storeZYX :=
  ⟨by unfold KVStore.Sorted; decide, by decide,
    (c13_list_reflects_store exampleKeeper storeZYX (by unfold KVStore.Sorted; decide)).1⟩

/-! ## C14: upsert, then get -/

/-- C14: for every store, id and beam `b` (the codec decoding what it
encodes), after `UpdateBeam(id, b)` `HasBeam(id)` is true and `GetBeam(id)`
returns `b`, whether or not the id had an entry before; after a second
`UpdateBeam(id, b')`, `GetBeam(id)` returns `b'`. -/
theorem c14_upsert_then_get (k : Keeper) (hF : k.cdc.Faithful) (s : KVStore)
    (id : GoString) (b b' : Beam) :
    HasBeam k (UpdateBeam k s id b) id = true
    ∧ GetBeam k (UpdateBeam k s id b) id = some b
    ∧ HasBeam k (UpdateBeam k (UpdateBeam k s id b) id b') id = true
    ∧ GetBeam k (UpdateBeam k (UpdateBeam k s id b) id b') id = some b' :=
  ⟨HasBeam_UpdateBeam_same k s id b, GetBeam_UpdateBeam_same k hF s id b,
    HasBeam_UpdateBeam_same k _ id b', GetBeam_UpdateBeam_same k hF _ id b'⟩

/-- C14 on the store of scenario C, at the id `Q`, which has no entry, and at
the id `Z`, which has one. -/
theorem c14_upsert_then_get_witness :
    (HasBeam exampleKeeper storeZopened (str "Q") = false
      ∧ HasBeam exampleKeeper storeZopened (str "Z") = true)
    ∧ (HasBeam exampleKeeper (UpdateBeam exampleKeeper storeZopened (str "Q") zeroBeam)
          (str "Q") = true
        ∧ GetBeam exampleKeeper (UpdateBeam exampleKeeper storeZopened (str "Q") zeroBeam)
          (str "Q") = some zeroBeam
        ∧ HasBeam exampleKeeper
          (UpdateBeam exampleKeeper (UpdateBeam exampleKeeper storeZopened (str "Q") zeroBeam)
            (str "Q") beamZ) (str "Q") = true
        ∧ GetBeam exampleKeeper
          (UpdateBeam exampleKeeper (UpdateBeam exampleKeeper storeZopened (str "Q") zeroBeam)
            (str "Q") beamZ) (str "Q") = some beamZ)
    ∧ (HasBeam exampleKeeper (UpdateBeam exampleKeeper storeZopened (str "Z") zeroBeam)
          (str "Z") = true
        ∧ GetBeam exampleKeeper (UpdateBeam exampleKeeper storeZopened (str "Z") zeroBeam)
          (str "Z") = some zeroBeam
        ∧ HasBeam exampleKeeper
          (UpdateBeam exampleKeeper (UpdateBeam exampleKeeper storeZopened (str "Z") zeroBeam)
            (str "Z") beamZ) (str "Z") = true
        ∧ GetBeam exampleKeeper
          (UpdateBeam exampleKeeper (UpdateBeam exampleKeeper storeZopened (str "Z") zeroBeam)
            (str "Z") beamZ) (str "Z") = some beamZ) :=
  ⟨⟨by decide, by decide⟩,
    c14_upsert_then_get exampleKeeper exampleCodec_faithful storeZopened (str "Q") zeroBeam beamZ,
    c14_upsert_then_get exampleKeeper exampleCodec_faithful storeZopened (str "Z") zeroBeam beamZ⟩

/-! ## C15: one entity per call, and no deletion -/

/-- C15: for every store and every call of `IncreaseBeam`, `CloseBeam`,
`CancelBeam` or `ClaimBeam` on the id `X` that returns, the ids present are the
same after the call as before (`HasBeam` is the same for every id), every key
of the store other than the key of `X` has the same entry as before, and so
the entry of every id other than `X` is unchanged. -/
theorem c15_one_entity_no_deletion (k : Keeper) (s : KVStore) (e : Option BeamError)
    (s1 : KVStore) :
    (∀ msg, IncreaseBeam k s msg = some (e, s1) →
        (∀ id, HasBeam k s1 id = HasBeam k s id)
        ∧ (∀ key, key ≠ beamStoreKey msg.Id → s1.lookup key = s.lookup key)
        ∧ (∀ id, id ≠ msg.Id → s1.lookup (beamStoreKey id) = s.lookup (beamStoreKey id)))
    ∧ (∀ msg, CloseBeam k s msg = some (e, s1) →
        (∀ id, HasBeam k s1 id = HasBeam k s id)
        ∧ (∀ key, key ≠ beamStoreKey msg.Id → s1.lookup key = s.lookup key)
        ∧ (∀ id, id ≠ msg.Id → s1.lookup (beamStoreKey id) = s.lookup (beamStoreKey id)))
    ∧ (∀ msg, CancelBeam k s msg = some (e, s1) →
        (∀ id, HasBeam k s1 id = HasBeam k s id)
        ∧ (∀ key, key ≠ beamStoreKey msg.Id → s1.lookup key = s.lookup key)
        ∧ (∀ id, id ≠ msg.Id → s1.lookup (beamStoreKey id) = s.lookup (beamStoreKey id)))
    ∧ (∀ msg, ClaimBeam k s msg = some (e, s1) →
        (∀ id, HasBeam k s1 id = HasBeam k s id)
        ∧ (∀ key, key ≠ beamStoreKey msg.Id → s1.lookup key = s.lookup key)
        ∧ (∀ id, id ≠ msg.Id → s1.lookup (beamStoreKey id) = s.lookup (beamStoreKey id))) :=
  ⟨fun msg h => frame_of_shape k s s1 _ (IncreaseBeam_shape k s msg e s1 h),
    fun msg h => frame_of_shape k s s1 _ (CloseBeam_shape k s msg e s1 h),
    fun msg h => frame_of_shape k s s1 _ (CancelBeam_shape k s msg e s1 h),
    fun msg h => frame_of_shape k s s1 _ (ClaimBeam_shape k s msg e s1 h)⟩

/-- C15 on the store with the beams `Y` and `Z`, at the close of `Z` by its
creator. -/
theorem c15_one_entity_no_deletion_witness :
    (CloseBeam exampleKeeper storeZY ⟨str "Z", str "carol"⟩
        = some (none, UpdateBeam exampleKeeper storeZY (str "Z")
            { beamZ with Status := BeamStatusFinalized }))
    ∧ ((∀ id, HasBeam exampleKeeper (UpdateBeam exampleKeeper storeZY (str "Z")
            { beamZ with Status := BeamStatusFinalized }) id = HasBeam exampleKeeper storeZY id)
      ∧ (∀ key, key ≠ beamStoreKey (str "Z") →
          (UpdateBeam exampleKeeper storeZY (str "Z")
            { beamZ with Status := BeamStatusFinalized }).lookup key = storeZY.lookup key)
      ∧ (∀ id, id ≠ str "Z" →
          (UpdateBeam exampleKeeper storeZY (str "Z")
            { beamZ with Status := BeamStatusFinalized }).lookup (beamStoreKey id)
          = storeZY.lookup (beamStoreKey id))) :=
  ⟨by decide,
    (c15_one_entity_no_deletion exampleKeeper storeZY none _).2.1 ⟨str "Z", str "carol"⟩
      (by decide)⟩

/-! ## C16: the id retry of `OpenBeam` -/

/-- C16, as stated, fails on the store of scenario C: when every token drawn
is `Z`, which is taken, `OpenBeam` has not returned after `5` attempts nor
after `40`, and at no number of attempts does it return an
`ExhaustedIdentifierSpace` error; when the 41st token is `Y` it returns no
error at that attempt. -/
theorem c16_counterexample :
    HasBeam exampleKeeper storeZopened (str "Z") = true
    ∧ OpenBeam exampleKeeper storeZopened ⟨str "bob", str "s2", 10⟩
        (List.replicate 5 (str "Z")) = none
    ∧ OpenBeam exampleKeeper storeZopened ⟨str "bob", str "s2", 10⟩
        (List.replicate 40 (str "Z")) = none
    ∧ OpenBeam exampleKeeper storeZopened ⟨str "bob", str "s2", 10⟩
        (List.replicate 40 (str "Z") ++ [str "Y"]) = some (none, storeZY)
    ∧ (¬ ∃ (n : Nat) (s1 : KVStore),
        OpenBeam exampleKeeper storeZopened ⟨str "bob", str "s2", 10⟩
          (List.replicate n (str "Z")) = some (some BeamError.ExhaustedIdentifierSpace, s1)) := by
  have hZ : HasBeam exampleKeeper storeZopened (str "Z") = true := by decide
  have hall : ∀ n, ∀ t ∈ List.replicate n (str "Z"),
      HasBeam exampleKeeper storeZopened t = true := by
    intro n t ht
    rw [List.eq_of_mem_replicate ht]
    exact hZ
  refine ⟨hZ, OpenBeam_all_taken _ _ _ _ (hall 5), OpenBeam_all_taken _ _ _ _ (hall 40), ?_, ?_⟩
  · exact OpenBeam_after_taken exampleKeeper storeZopened ⟨str "bob", str "s2", 10⟩
      (List.replicate 40 (str "Z")) (str "Y") [] (hall 40) (by decide)
  · rintro ⟨n, s1, h⟩
    rw [OpenBeam_all_taken _ _ _ _ (hall n)] at h
    cases h

/-- C16, amended: the id retry of `OpenBeam` has no bound and no
`ExhaustedIdentifierSpace` error. For every store and every sequence of
tokens, as long as every token drawn is the id of a beam the call has not
returned, whatever the number of attempts; once a token drawn has no entry,
after any number of taken ones, the call writes the beam under it and returns
no error; and a call that returns never returns an error. -/
theorem c16_retry_is_unbounded (k : Keeper) (s : KVStore) (msg : MsgOpenBeam) :
    (∀ taken : List GoString, (∀ t ∈ taken, HasBeam k s t = true) →
        OpenBeam k s msg taken = none)
    ∧ (∀ (taken : List GoString) (fresh : GoString) (rest : List GoString),
        (∀ t ∈ taken, HasBeam k s t = true) → HasBeam k s fresh = false →
        OpenBeam k s msg (taken ++ fresh :: rest)
          = some (none, UpdateBeam k s fresh
              ⟨msg.Creator, fresh, msg.Secret, msg.Amount, BeamStatusPending⟩))
    ∧ (∀ (tokens : List GoString) (e : Option BeamError) (s1 : KVStore),
        OpenBeam k s msg tokens = some (e, s1) → e = none) :=
  ⟨fun taken h => OpenBeam_all_taken k s msg taken h,
    fun taken fresh rest h hf => OpenBeam_after_taken k s msg taken fresh rest h hf,
    fun tokens e s1 h => (OpenBeam_returns k s msg tokens e s1 h).1⟩

/-- C16, amended, on the store of scenario C: three draws of `Z`, then `Y`. -/
theorem c16_retry_is_unbounded_witness :
    ((∀ t ∈ [str "Z", str "Z", str "Z"], HasBeam exampleKeeper storeZopened t = true)
      ∧ HasBeam exampleKeeper storeZopened (str "Y") = false)
    ∧ OpenBeam exampleKeeper storeZopened ⟨str "bob", str "s2", 10⟩
        ([str "Z", str "Z", str "Z"] ++ str "Y" :: [])
      = some (none, UpdateBeam exampleKeeper storeZopened (str "Y")
          ⟨str "bob", str "Y", str "s2", 10, BeamStatusPending⟩) :=
  ⟨⟨by decide, by decide⟩,
    (c16_retry_is_unbounded exampleKeeper storeZopened ⟨str "bob", str "s2", 10⟩).2.1
      [str "Z", str "Z", str "Z"] (str "Y") [] (by decide) (by decide)⟩

/-! ## C17: no transfer is made -/

/-- C17 fails on the code: on the pending beam of scenario C, `CloseBeam` and
`CancelBeam` by the creator and `ClaimBeam` with the secret return no error
and leave the status finalized, canceled and claimed, while the call has
invoked no transfer at all (the list of its transfer invocations is empty, so
it does not hold the one invocation with the amount `10`). -/
theorem c17_status_changes_without_transfer :
    storedBeam exampleKeeper storeZopened (str "Z") = some beamZ
    ∧ (CloseBeam exampleKeeper storeZopened ⟨str "Z", str "carol"⟩
          = some (none, UpdateBeam exampleKeeper storeZopened (str "Z")
              { beamZ with Status := BeamStatusFinalized })
        ∧ storedBeam exampleKeeper (UpdateBeam exampleKeeper storeZopened (str "Z")
              { beamZ with Status := BeamStatusFinalized }) (str "Z")
          = some { beamZ with Status := BeamStatusFinalized }
        ∧ Call.transfers exampleKeeper storeZopened (Call.closeBeam ⟨str "Z", str "carol"⟩)
          ≠ [10])
    ∧ (CancelBeam exampleKeeper storeZopened ⟨str "Z", str "carol"⟩
          = some (none, storeZcanceled)
        ∧ storedBeam exampleKeeper storeZcanceled (str "Z")
          = some { beamZ with Status := BeamStatusCanceled }
        ∧ Call.transfers exampleKeeper storeZopened (Call.cancelBeam ⟨str "Z", str "carol"⟩)
          ≠ [10])
    ∧ (ClaimBeam exampleKeeper storeZopened ⟨str "Z", str "s3"⟩
          = some (none, UpdateBeam exampleKeeper storeZopened (str "Z")
              { beamZ with Status := BeamStatusClaimed })
        ∧ storedBeam exampleKeeper (UpdateBeam exampleKeeper storeZopened (str "Z")
              { beamZ with Status := BeamStatusClaimed }) (str "Z")
          = some { beamZ with Status := BeamStatusClaimed }
        ∧ Call.transfers exampleKeeper storeZopened (Call.claimBeam ⟨str "Z", str "s3"⟩)
          ≠ [10]) := by
  refine ⟨by decide, ⟨by decide, by decide, by decide⟩, ⟨by decide, by decide, by decide⟩,
    ⟨by decide, by decide, by decide⟩⟩

/-! ## C18: the key of a beam -/

/-- C18, as stated, fails at the id `X`: the key under which the keeper
addresses the beam in the underlying store is `Beam/value/Beam/value/X`, with
the namespace twice, not `Beam/value/X`; after `UpdateBeam` on the empty store
the store has its one entry under the first key and none under the second. -/
theorem c18_counterexample :
    beamStoreKey (str "X") = str "Beam/value/Beam/value/X"
    ∧ beamStoreKey (str "X") ≠ BeamKey ++ str "X"
    ∧ UpdateBeam exampleKeeper [] (str "X") zeroBeam
        = [(str "Beam/value/Beam/value/X", exampleMarshal zeroBeam)]
    ∧ (UpdateBeam exampleKeeper [] (str "X") zeroBeam).lookup (BeamKey ++ str "X") = none
    ∧ HasBeam exampleKeeper (UpdateBeam exampleKeeper [] (str "X") zeroBeam) (str "X") = true := by
  refine ⟨by decide, by decide, by decide, by decide, by decide⟩

/-- C18, amended: for every id, the key under which `GetBeam`, `HasBeam`,
`UpdateBeam` and `OpenBeam` address the beam in the underlying store is the
namespace, then the namespace again, then the id: the methods give the key
`BeamKey + id` to a view of the store that is itself under the namespace
`BeamKey`. The four methods use that same key, the mapping from id to key is
injective, and in a store with its keys in ascending order there is exactly
one entry with the key of an id that `HasBeam`, and none otherwise. -/
theorem c18_key_construction (k : Keeper) (s : KVStore) (id : GoString) :
    beamStoreKey id = BeamKey ++ (BeamKey ++ id)
    ∧ beamStoreKey id ≠ BeamKey ++ id
    ∧ GetBeam k s id = k.cdc.MustUnmarshalBinaryBare (s.Get (BeamKey ++ (BeamKey ++ id)))
    ∧ HasBeam k s id = s.Has (BeamKey ++ (BeamKey ++ id))
    ∧ (∀ b, UpdateBeam k s id b
        = s.Set (BeamKey ++ (BeamKey ++ id)) (k.cdc.MustMarshalBinaryBare b))
    ∧ (∀ (msg : MsgOpenBeam) (tokens : List GoString) (e : Option BeamError) (s1 : KVStore),
        OpenBeam k s msg tokens = some (e, s1) →
        ∃ t ∈ tokens, s1 = s.Set (BeamKey ++ (BeamKey ++ t))
          (k.cdc.MustMarshalBinaryBare
            ⟨msg.Creator, t, msg.Secret, msg.Amount, BeamStatusPending⟩))
    ∧ (∀ id2, beamStoreKey id = beamStoreKey id2 → id = id2)
    ∧ (s.Sorted →
        (s.filter (fun e => decide (e.1 = beamStoreKey id))).length
          = if HasBeam k s id then 1 else 0) := by
  refine ⟨rfl, beamStoreKey_ne_single id, rfl, rfl, fun _ => rfl, ?_,
    fun id2 h => beamStoreKey_injective id id2 h, ?_⟩
  · intro msg tokens e s1 h
    obtain ⟨_, t, _, hin, _, hs⟩ := OpenBeam_returns k s msg tokens e s1 h
    exact ⟨t, hin, hs⟩
  · intro hs
    rw [HasBeam_eq]
    exact entries_of_key s hs (beamStoreKey id)

/-- C18, amended, on the store with the beams `X`, `Y` and `Z`, at the id
`Y`. -/
theorem c18_key_construction_witness :
    storeZYX.Sorted
    ∧ (storeZYX.filter (fun e => decide (e.1 = beamStoreKey (str "Y")))).length
        = if HasBeam exampleKeeper storeZYX (str "Y") then 1 else 0 :=
  ⟨by unfold KVStore.Sorted; decide,
    (c18_key_construction exampleKeeper storeZYX (str "Y")).2.2.2.2.2.2.2
      (by unfold KVStore.Sorted; decide)⟩

/-! ## C19: the `Id` field is the id of the entry -/

/-- C19: (the codec decoding what it encodes) if in a store every beam stored
has as its `Id` field the id it is stored under, then the same holds in the
store after any `OpenBeam`, `IncreaseBeam`, `CloseBeam`, `CancelBeam` or
`ClaimBeam` call that returns, whatever its arguments; hence it holds in every
store reached from the empty store by a sequence of such calls. -/
theorem c19_key_id_consistent (k : Keeper) (hF : k.cdc.Faithful) :
    (∀ (s : KVStore) (c : Call) (e : Option BeamError) (s1 : KVStore),
        KeyIdConsistent k s → c.run k s = some (e, s1) → KeyIdConsistent k s1)
    ∧ (∀ (calls : List Call) (es : List (Option BeamError)) (s1 : KVStore),
        runCalls k [] calls = some (es, s1) → KeyIdConsistent k s1) :=
  ⟨fun s c e s1 hinv h => Call.run_keyId k hF s c e s1 h hinv,
    fun calls es s1 h => runCalls_keyId k hF calls [] es s1 h (KeyIdConsistent_nil k)⟩

/-- C19 on scenario C: open, cancel and increase from the empty store. -/
theorem c19_key_id_consistent_witness :
    (runCalls exampleKeeper []
        [Call.openBeam ⟨str "carol", str "s3", 10⟩ [str "Z"],
         Call.cancelBeam ⟨str "Z", str "carol"⟩,
         Call.increaseBeam ⟨str "Z", str "carol", 5⟩]
        = some ([none, none, none], storeZincreased))
    ∧ KeyIdConsistent exampleKeeper storeZincreased :=
  ⟨by decide,
    (c19_key_id_consistent exampleKeeper exampleCodec_faithful).2
      [Call.openBeam ⟨str "carol", str "s3", 10⟩ [str "Z"],
       Call.cancelBeam ⟨str "Z", str "carol"⟩,
       Call.increaseBeam ⟨str "Z", str "carol", 5⟩]
      [none, none, none] storeZincreased (by decide)⟩

end BeamKeeper
